import Mathlib

/-!
Shallow embedding of the core pipeline of `src/log_analyzer.py`
(remote-log download, log classification, tracker merge), with theorems
checking the specification's claims against these definitions.

Conventions of the embedding:
* a text line / filename / path is a `String`; Python's substring test
  `needle in hay` is `strContains hay needle`, computed on character lists;
* Python string comparison (`max` over filenames) is code-point
  lexicographic, embedded as `charListLt` on `List Char`;
* a pandas DataFrame is a `DataFrame`: a list of column names plus rows of
  cells, a cell being `Option String` (`none` models NaN / a missing value);
* the SFTP world of `download_latest_logs` is a `RemoteEnv` giving the
  outcome of `listdir` per remote path and of `get` per full remote path;
  session establishment is a `SessionOutcome`, and exceptions that escape a
  function are modelled with `Except`.
-/

namespace LogAnalyzer

/- ### Generic list/string helpers -/

/-- Boolean test that `p` is an initial segment of `l` (used to detect a
substring occurrence starting at the head). -/
def leadsWith : List Char → List Char → Bool
  | [], _ => true
  | _ :: _, [] => false
  | a :: as, b :: bs => a = b && leadsWith as bs

/-- Boolean test that `needle` occurs contiguously inside `hay`
(Python's `needle in hay` for strings). -/
def occursIn (needle : List Char) : List Char → Bool
  | [] => needle.isEmpty
  | c :: rest => leadsWith needle (c :: rest) || occursIn needle rest

/-- Python's `needle in hay` on `String`s. -/
def strContains (hay needle : String) : Bool :=
  occursIn needle.data hay.data

/-- Code-point lexicographic strict order on character lists: Python's
`<` on strings. -/
def charListLt : List Char → List Char → Bool
  | [], [] => false
  | [], _ :: _ => true
  | _ :: _, [] => false
  | a :: as, b :: bs =>
    if a.toNat < b.toNat then true
    else if b.toNat < a.toNat then false
    else charListLt as bs

/-- Python's `a < b` on strings. -/
def pyStrLt (a b : String) : Bool := charListLt a.data b.data

/-- Python's `max(files)` on a list of strings: keeps the current value on
ties, replaces it when a strictly greater element appears; `""` on the
empty list (never used there: the caller checks emptiness first). -/
def pyMax : List String → String
  | [] => ""
  | h :: t => t.foldl (fun a b => if pyStrLt a b then b else a) h

/-- Index of the last occurrence of character `c` in a list (Python
`rfind`), or `none`. -/
def lastIdxOf (c : Char) : List Char → Option Nat
  | [] => none
  | a :: rest =>
    match lastIdxOf c rest with
    | some i => some (i + 1)
    | none => if a = c then some 0 else none

/-- Index of the first list element equal to `name`, or `none` (pandas
`columns.get_loc` / first matching column). -/
def firstIdx (name : String) : List String → Option Nat
  | [] => none
  | c :: cs => if c = name then some 0 else (firstIdx name cs).map (· + 1)

/-- Insertion of `a` before position `n` (pandas `DataFrame.insert`);
out-of-range positions leave the list unchanged. -/
def listInsertAt {α : Type} (a : α) : Nat → List α → List α
  | 0, l => a :: l
  | _ + 1, [] => []
  | n + 1, x :: xs => x :: listInsertAt a n xs

/- ### Log classification (`analyze_downloaded_logs`, lines 233-296) -/

/-- Success marker (`SUCCESS_KEYWORD`, line 27). -/
def SUCCESS_KEYWORD : String := "Execution Return Code: 0"

/-- Failure marker (`FAILURE_KEYWORD`, line 28). -/
def FAILURE_KEYWORD : String := "*** Failure"

/-- Error marker (`ERROR_KEYWORD`, line 29). -/
def ERROR_KEYWORD : String := "*** Error:"

/-- The scan `for line in reversed(content)` of lines 273-283, applied to
the already-reversed list of lines: the first line carrying a marker
decides the status, success checked before failure before error; `unknown`
when no line carries a marker. -/
def classifyRev : List String → String
  | [] => "unknown"
  | l :: rest =>
    if strContains l SUCCESS_KEYWORD then "success"
    else if strContains l FAILURE_KEYWORD then "failure"
    else if strContains l ERROR_KEYWORD then "error"
    else classifyRev rest

/-- Status of one readable file from its list of lines (lines 267-285). -/
def classifyContent (content : List String) : String :=
  classifyRev content.reverse

/-- Outcome of opening and reading one local log file: its lines, or the
`FileNotFoundError` of line 286, or any other exception (line 289). -/
inductive FileRead : Type
  | lines : List String → FileRead
  | vanished : FileRead
  | readFailed : FileRead
deriving DecidableEq

/-- Status recorded for one file (lines 267-291). -/
def classifyFile : FileRead → String
  | .lines content => classifyContent content
  | .vanished => "not_found"
  | .readFailed => "parse_error"

/-- State of the local download directory as `analyze_downloaded_logs`
observes it: absent (`os.path.isdir` false, line 248), unlistable
(line 254), or present with a list of named files. -/
inductive LocalDir : Type
  | absent : LocalDir
  | unlistable : LocalDir
  | present : List (String × FileRead) → LocalDir

/-- The function `analyze_downloaded_logs` (lines 233-296): the returned
dictionary as an association list in insertion order. -/
def analyze_downloaded_logs : LocalDir → List (String × String)
  | .absent => [("error", "directory_not_found")]
  | .unlistable => [("error", "directory_list_error")]
  | .present files => files.map (fun fc => (fc.1, classifyFile fc.2))

/- ### Remote download (`download_latest_logs`, lines 140-231) -/

/-- Outcome of `sftp_client.listdir(remote_path)` for one path: a listing,
or one of the exception classes caught at lines 213, 217, 221. -/
inductive ListOutcome : Type
  | ok : List String → ListOutcome
  | notFound : ListOutcome
  | ioError : ListOutcome
  | otherError : ListOutcome
deriving DecidableEq

/-- The remote side as one run observes it: per directory, the outcome of
listing it; per full remote file path, whether `sftp_client.get` succeeds. -/
structure RemoteEnv : Type where
  listdir : String → ListOutcome
  getOk : String → Bool

/-- Outcome of establishing the SSH session and the SFTP sub-session
(lines 163-180); the three failure shapes are the fatal exceptions the
caller distinguishes (lines 465-476). -/
inductive SessionOutcome : Type
  | authFail : SessionOutcome
  | sshFail : SessionOutcome
  | timedOut : SessionOutcome
  | ok : RemoteEnv → SessionOutcome

/-- Mutable state of the download loop: the `problematic_remote_paths`
list, the `downloaded_log_filenames` set, and the copies performed so far
(full remote path and filename of each successful `sftp_client.get`). -/
structure DLState : Type where
  problematic : List String
  downloaded : List String
  copies : List (String × String)
deriving DecidableEq

/-- Guarded append of lines 194-195 / 215-216 / 219-220 / 224-225: a path
is appended only when not already recorded. -/
def addProblem (l : List String) (p : String) : List String :=
  if l.contains p then l else l ++ [p]

/-- Python `remote_path.rstrip('/')`: drop every trailing slash. -/
def rstripSlash (s : String) : String :=
  String.mk (s.data.reverse.dropWhile (fun c => c = '/')).reverse

/-- One iteration of the row loop of lines 182-225, for the row's
remote-path cell (`none` models a NaN cell). -/
def dlStep (env : RemoteEnv) (st : DLState) (cell : Option String) : DLState :=
  match cell with
  | none => st
  | some rp =>
    if rp = "" then st
    else
      match env.listdir rp with
      | .ok files =>
        if files = [] then { st with problematic := addProblem st.problematic rp }
        else
          let latest := pyMax files
          if st.downloaded.contains latest then st
          else
            let full := rstripSlash rp ++ "/" ++ latest
            if env.getOk full then
              { st with downloaded := st.downloaded ++ [latest],
                        copies := st.copies ++ [(full, latest)] }
            else { st with problematic := addProblem st.problematic rp }
      | .notFound => { st with problematic := addProblem st.problematic rp }
      | .ioError => { st with problematic := addProblem st.problematic rp }
      | .otherError => { st with problematic := addProblem st.problematic rp }

/-- The function `download_latest_logs` (lines 140-231) over the list of
remote-path cells of the DataFrame's rows: a session failure propagates as
an error; otherwise the row loop runs to completion and the final state is
returned (the Python function returns `problematic_remote_paths`). -/
def download_latest_logs (sess : SessionOutcome) (cells : List (Option String)) :
    Except String DLState :=
  match sess with
  | .authFail => .error "AuthenticationException"
  | .sshFail => .error "SSHException"
  | .timedOut => .error "TimeoutError"
  | .ok env => .ok (cells.foldl (dlStep env) ⟨[], [], []⟩)

/- ### Path and filename helpers of the merge step -/

/-- Python `os.path.basename` on a POSIX path: the segment after the last
slash. -/
def pathBasename (s : String) : String :=
  String.mk ((s.data.reverse.takeWhile (fun c => c ≠ '/')).reverse)

/-- The row identifier of line 344:
`os.path.basename(remote_path.rstrip('/'))`. -/
def pathIdentifier (p : String) : String :=
  pathBasename (rstripSlash p)

/-- Python `os.path.splitext(f)[0]` on a POSIX path: everything before the
last dot of the final segment, unless that segment up to the dot is all
dots (a dotfile keeps its name whole). -/
def splitextRoot (p : String) : String :=
  let cs := p.data
  match lastIdxOf '.' cs with
  | none => p
  | some d =>
    let s : Nat :=
      match lastIdxOf '/' cs with
      | none => 0
      | some i => i + 1
    if s ≤ d then
      if ((cs.drop s).take (d - s)).all (fun c => c = '.') then p
      else String.mk (cs.take d)
    else p

/-- The base job identifier of line 335: the part of the filename before
its first hyphen, or the filename without its extension when it has no
hyphen. -/
def baseJobName (f : String) : String :=
  if strContains f "-" then String.mk (f.data.takeWhile (fun c => c ≠ '-'))
  else splitextRoot f

/- ### DataFrame model and tracker merge (`update_tracker_with_results`, lines 298-374) -/

/-- One table cell; `none` models NaN (`pd.notna` false). -/
abbrev Cell := Option String

/-- A pandas DataFrame: ordered column names and rows of cells aligned
with them positionally. -/
structure DataFrame : Type where
  cols : List String
  rows : List (List Cell)
deriving DecidableEq

/-- Alignment invariant of a real pandas frame: every row has one cell per
column. -/
def DataFrame.Wf (df : DataFrame) : Prop :=
  ∀ r ∈ df.rows, r.length = df.cols.length

/-- The column constant `LOG_PATH_COLUMN` (line 25). -/
def LOG_PATH_COLUMN : String := "remote_log_directory"

/-- The column-name stem `RESULTS_COLUMN_PREFIX` of line 26 (renamed here:
the original name is not usable in this development). -/
def RESULTS_COLUMN_STEM : String := "analysis_results_"

/-- The result-column name of line 316. -/
def resultsColName (date_string : String) : String :=
  RESULTS_COLUMN_STEM ++ date_string

/-- Value of the cell of row `i` in the column first named `name`
(`none` when the column or row is missing, or the cell is NaN). -/
def getCell (df : DataFrame) (name : String) (i : Nat) : Option String :=
  match firstIdx name df.cols with
  | none => none
  | some j => ((df.rows.get? i).bind (fun r => r.get? j)).join

/-- Lines 319-328: reset the result column to `not_analyzed` when it
exists, otherwise insert it right after the remote-path column (at the end
when that column is absent), initialized to `not_analyzed`. -/
def ensureResultsColumn (df : DataFrame) (rc : String) : DataFrame :=
  match firstIdx rc df.cols with
  | some j =>
    { df with rows := df.rows.map (fun r => r.set j (some "not_analyzed")) }
  | none =>
    let pos : Nat :=
      match firstIdx LOG_PATH_COLUMN df.cols with
      | some i => i + 1
      | none => df.cols.length
    { cols := listInsertAt rc pos df.cols,
      rows := df.rows.map (listInsertAt (some "not_analyzed") pos) }

/-- The row test of lines 342-346: the row's remote-path cell is non-NaN
and non-blank and its path identifier equals the base job name. -/
def matchRow (pathIdx : Nat) (base : String) (row : List Cell) : Bool :=
  match (row.get? pathIdx).join with
  | none => false
  | some p => if p = "" then false else decide (pathIdentifier p = base)

/-- The write-back of lines 340-351 over the rows from index `i` on:
every matching row gets `status` in the result column, and the indices of
the matching rows are collected (the additions to `analyzed_rows`). -/
def applyRows (pathIdx resIdx : Nat) (base status : String) :
    Nat → List (List Cell) → List (List Cell) × List Nat
  | _, [] => ([], [])
  | i, r :: rs =>
    let rest := applyRows pathIdx resIdx base status (i + 1) rs
    if matchRow pathIdx base r then
      (r.set resIdx (some status) :: rest.1, i :: rest.2)
    else (r :: rest.1, rest.2)

/-- One iteration of the loop of lines 331-354 over one entry of the
classification dictionary: entries with an internal error-marker status
are skipped (line 332). -/
def applyEntry (pathIdx resIdx : Nat) (st : List (List Cell) × List Nat)
    (entry : String × String) : List (List Cell) × List Nat :=
  if entry.2 = "directory_not_found" ∨ entry.2 = "directory_list_error" then st
  else
    let out := applyRows pathIdx resIdx (baseJobName entry.1) entry.2 0 st.1
    (out.1, st.2 ++ out.2)

/-- The whole matching pass of lines 330-354, in the dictionary's
insertion order, starting from an empty `analyzed_rows`. -/
def matchPass (pathIdx resIdx : Nat) (res : List (String × String))
    (rows : List (List Cell)) : List (List Cell) × List Nat :=
  res.foldl (applyEntry pathIdx resIdx) (rows, [])

/-- One iteration of the fallback loop of lines 357-371 on the row at
index `i`. -/
def fallbackRow (pathIdx resIdx : Nat) (problematic : List String)
    (analyzed : List Nat) (i : Nat) (row : List Cell) : List Cell :=
  let current := (row.get? resIdx).join
  let rp := (row.get? pathIdx).join
  match rp with
  | some p =>
    if problematic.contains p then
      if current = some "not_analyzed" then row.set resIdx (some "access_error")
      else row
    else if analyzed.contains i = false ∧ current = some "not_analyzed" then
      if p = "" then row.set resIdx (some "missing_path")
      else row.set resIdx (some "log_not_found_or_analyzed")
    else row
  | none =>
    if analyzed.contains i = false ∧ current = some "not_analyzed" then
      row.set resIdx (some "missing_path")
    else row

/-- The fallback pass of lines 356-371 over the rows from index `i` on. -/
def fallbackRows (pathIdx resIdx : Nat) (problematic : List String)
    (analyzed : List Nat) : Nat → List (List Cell) → List (List Cell)
  | _, [] => []
  | i, r :: rs =>
    fallbackRow pathIdx resIdx problematic analyzed i r ::
      fallbackRows pathIdx resIdx problematic analyzed (i + 1) rs

/-- The function `update_tracker_with_results` (lines 298-374). The
Python code raises `KeyError` at line 342/359 exactly when the remote-path
column is absent while the table has rows; this surfaces as `.error ()`.
The first branch (result column absent even after `ensureResultsColumn`)
is unreachable. -/
def update_tracker_with_results (df : DataFrame) (analysis_results : List (String × String))
    (date_string : String) (problematic_remote_paths : List String) :
    Except Unit DataFrame :=
  let rc := resultsColName date_string
  let df1 := ensureResultsColumn df rc
  match firstIdx rc df1.cols with
  | none => .ok df1
  | some resIdx =>
    match firstIdx LOG_PATH_COLUMN df1.cols with
    | none => if df1.rows = [] then .ok df1 else .error ()
    | some pathIdx =>
      let ms := matchPass pathIdx resIdx analysis_results df1.rows
      .ok { df1 with
            rows := fallbackRows pathIdx resIdx problematic_remote_paths ms.2 0 ms.1 }

/- ### Lemmas on the generic helpers -/

theorem get?_set_self {α : Type} (l : List α) (i : Nat) (a : α) (h : i < l.length) :
    (l.set i a).get? i = some a := by
  induction l generalizing i with
  | nil => simp at h
  | cons x xs ih =>
    cases i with
    | zero => rfl
    | succ n => simpa using ih n (by simpa using h)

theorem get?_set_other {α : Type} (l : List α) (i j : Nat) (a : α) (h : i ≠ j) :
    (l.set i a).get? j = l.get? j := by
  induction l generalizing i j with
  | nil => simp
  | cons x xs ih =>
    cases i with
    | zero =>
      cases j with
      | zero => exact absurd rfl h
      | succ m => rfl
    | succ n =>
      cases j with
      | zero => rfl
      | succ m => simpa using ih n m (by omega)

theorem set_of_get? {α : Type} (l : List α) (i : Nat) (a : α) (h : l.get? i = some a) :
    l.set i a = l := by
  induction l generalizing i with
  | nil => rfl
  | cons x xs ih =>
    cases i with
    | zero => simp_all
    | succ n =>
      simp only [List.set]
      rw [ih n (by simpa using h)]

theorem length_listInsertAt {α : Type} (a : α) (n : Nat) (l : List α) (h : n ≤ l.length) :
    (listInsertAt a n l).length = l.length + 1 := by
  induction l generalizing n with
  | nil =>
    cases n with
    | zero => rfl
    | succ m => simp at h
  | cons x xs ih =>
    cases n with
    | zero => rfl
    | succ m => simpa [listInsertAt] using ih m (by simpa using h)

theorem get?_listInsertAt_self {α : Type} (a : α) (n : Nat) (l : List α) (h : n ≤ l.length) :
    (listInsertAt a n l).get? n = some a := by
  induction l generalizing n with
  | nil =>
    cases n with
    | zero => rfl
    | succ m => simp at h
  | cons x xs ih =>
    cases n with
    | zero => rfl
    | succ m => simpa [listInsertAt] using ih m (by simpa using h)

theorem get?_listInsertAt_lt {α : Type} (a : α) (n j : Nat) (l : List α) (h : j < n) :
    (listInsertAt a n l).get? j = l.get? j := by
  induction l generalizing n j with
  | nil =>
    cases n with
    | zero => omega
    | succ m => rfl
  | cons x xs ih =>
    cases n with
    | zero => omega
    | succ m =>
      cases j with
      | zero => rfl
      | succ k => simpa [listInsertAt] using ih m k (by omega)

theorem get?_listInsertAt_ge {α : Type} (a : α) (n j : Nat) (l : List α)
    (h : n ≤ j) (hn : n ≤ l.length) :
    (listInsertAt a n l).get? (j + 1) = l.get? j := by
  induction l generalizing n j with
  | nil =>
    cases n with
    | zero => simp [listInsertAt]
    | succ m => simp at hn
  | cons x xs ih =>
    cases n with
    | zero => rfl
    | succ m =>
      cases j with
      | zero => omega
      | succ k => simpa [listInsertAt] using ih m k (by omega) (by simpa using hn)

theorem listInsertAt_length_eq_append {α : Type} (a : α) (l : List α) :
    listInsertAt a l.length l = l ++ [a] := by
  induction l with
  | nil => rfl
  | cons x xs ih => simpa [listInsertAt] using ih

theorem firstIdx_get? (name : String) (l : List String) (j : Nat)
    (h : firstIdx name l = some j) : l.get? j = some name := by
  induction l generalizing j with
  | nil => simp [firstIdx] at h
  | cons c cs ih =>
    by_cases hc : c = name
    · simp [firstIdx, hc] at h
      subst h; subst hc; rfl
    · simp [firstIdx, hc] at h
      obtain ⟨k, hk, rfl⟩ := h
      simpa using ih k hk

theorem firstIdx_lt_length (name : String) (l : List String) (j : Nat)
    (h : firstIdx name l = some j) : j < l.length := by
  induction l generalizing j with
  | nil => simp [firstIdx] at h
  | cons c cs ih =>
    by_cases hc : c = name
    · simp [firstIdx, hc] at h
      simp only [List.length_cons]
      omega
    · simp [firstIdx, hc] at h
      obtain ⟨k, hk, rfl⟩ := h
      have := ih k hk
      simpa using Nat.succ_lt_succ this

theorem firstIdx_isSome_of_mem (name : String) (l : List String) (h : name ∈ l) :
    ∃ j, firstIdx name l = some j := by
  induction l with
  | nil => simp at h
  | cons c cs ih =>
    by_cases hc : c = name
    · exact ⟨0, by simp [firstIdx, hc]⟩
    · have : name ∈ cs := by
        rcases List.mem_cons.mp h with h' | h'
        · exact absurd h'.symm hc
        · exact h'
      obtain ⟨k, hk⟩ := ih this
      exact ⟨k + 1, by simp [firstIdx, hc, hk]⟩

theorem firstIdx_none_of_not_mem (name : String) (l : List String) (h : name ∉ l) :
    firstIdx name l = none := by
  induction l with
  | nil => rfl
  | cons c cs ih =>
    have hc : c ≠ name := fun e => h (e ▸ List.mem_cons_self c cs)
    have : name ∉ cs := fun e => h (List.mem_cons_of_mem c e)
    simp [firstIdx, hc, ih this]

theorem firstIdx_listInsertAt_of_lt (name a : String) (l : List String) (j n : Nat)
    (h : firstIdx name l = some j) (hj : j < n) :
    firstIdx name (listInsertAt a n l) = some j := by
  induction l generalizing j n with
  | nil => simp [firstIdx] at h
  | cons c cs ih =>
    cases n with
    | zero => omega
    | succ m =>
      by_cases hc : c = name
      · simp [firstIdx, hc] at h
        simp [listInsertAt, firstIdx, hc, ← h]
      · simp [firstIdx, hc] at h
        obtain ⟨k, hk, rfl⟩ := h
        simp [listInsertAt, firstIdx, hc, ih k m hk (by omega)]

theorem firstIdx_listInsertAt_self (name : String) (l : List String) (n : Nat)
    (h : firstIdx name l = none) (hn : n ≤ l.length) :
    firstIdx name (listInsertAt name n l) = some n := by
  induction l generalizing n with
  | nil =>
    cases n with
    | zero => simp [listInsertAt, firstIdx]
    | succ m => simp at hn
  | cons c cs ih =>
    by_cases hc : c = name
    · simp [firstIdx, hc] at h
    · cases n with
      | zero => simp [listInsertAt, firstIdx]
      | succ m =>
        simp [firstIdx, hc] at h
        simp [listInsertAt, firstIdx, hc, ih m h (by simpa using hn)]

theorem firstIdx_listInsertAt_other (name a : String) (l : List String) (j n : Nat)
    (ha : a ≠ name) (h : firstIdx name l = some j) (hn : n ≤ l.length) :
    firstIdx name (listInsertAt a n l) = some (if j < n then j else j + 1) := by
  induction l generalizing j n with
  | nil => simp [firstIdx] at h
  | cons c cs ih =>
    cases n with
    | zero =>
      have hstep : firstIdx name (listInsertAt a 0 (c :: cs)) =
          (firstIdx name (c :: cs)).map (· + 1) := by
        simp [listInsertAt, firstIdx, ha]
      rw [hstep, h]
      simp
    | succ m =>
      by_cases hc : c = name
      · simp [firstIdx, hc] at h
        simp [listInsertAt, firstIdx, hc, ← h]
      · simp [firstIdx, hc] at h
        obtain ⟨k, hk, rfl⟩ := h
        have := ih k m hk (by simpa using hn)
        by_cases hkm : k < m
        · simp [listInsertAt, firstIdx, hc, this, hkm]
        · simp only [listInsertAt, firstIdx, hc, if_neg hc]
          rw [this]
          simp only [if_neg hkm, if_neg (by omega : ¬ k + 1 < m + 1)]
          rfl

/- ### Order lemmas for the Python string comparison -/

theorem charListLt_irrefl (l : List Char) : charListLt l l = false := by
  induction l with
  | nil => rfl
  | cons a as ih => simp [charListLt, ih]

theorem char_eq_of_toNat_eq (a b : Char) (h : a.toNat = b.toNat) : a = b := by
  have hval : a.val.toNat = b.val.toNat := h
  exact Char.eq_of_val_eq (UInt32.eq_of_val_eq (Fin.eq_of_val_eq hval))

theorem charListLt_trans (a b c : List Char) (h1 : charListLt a b = true)
    (h2 : charListLt b c = true) : charListLt a c = true := by
  induction a generalizing b c with
  | nil =>
    cases b with
    | nil => simp [charListLt] at h1
    | cons b₀ bs =>
      cases c with
      | nil => simp [charListLt] at h2
      | cons c₀ cs => rfl
  | cons a₀ as ih =>
    cases b with
    | nil => simp [charListLt] at h1
    | cons b₀ bs =>
      cases c with
      | nil => simp [charListLt] at h2
      | cons c₀ cs =>
        simp only [charListLt] at h1 h2 ⊢
        by_cases hab : a₀.toNat < b₀.toNat
        · by_cases hbc : b₀.toNat < c₀.toNat
          · rw [if_pos (by omega : a₀.toNat < c₀.toNat)]
          · rw [if_neg hbc] at h2
            by_cases hcb : c₀.toNat < b₀.toNat
            · rw [if_pos hcb] at h2; exact absurd h2 (by simp)
            · rw [if_pos (by omega : a₀.toNat < c₀.toNat)]
        · rw [if_neg hab] at h1
          by_cases hba : b₀.toNat < a₀.toNat
          · rw [if_pos hba] at h1; exact absurd h1 (by simp)
          · rw [if_neg hba] at h1
            by_cases hbc : b₀.toNat < c₀.toNat
            · rw [if_pos (by omega : a₀.toNat < c₀.toNat)]
            · rw [if_neg hbc] at h2
              by_cases hcb : c₀.toNat < b₀.toNat
              · rw [if_pos hcb] at h2; exact absurd h2 (by simp)
              · rw [if_neg hcb] at h2
                rw [if_neg (by omega : ¬ a₀.toNat < c₀.toNat),
                    if_neg (by omega : ¬ c₀.toNat < a₀.toNat)]
                exact ih bs cs h1 h2

theorem charListLt_connex (a b : List Char) (h1 : charListLt a b = false)
    (h2 : charListLt b a = false) : a = b := by
  induction a generalizing b with
  | nil =>
    cases b with
    | nil => rfl
    | cons b₀ bs => simp [charListLt] at h1
  | cons a₀ as ih =>
    cases b with
    | nil => simp [charListLt] at h2
    | cons b₀ bs =>
      simp only [charListLt] at h1 h2
      by_cases hab : a₀.toNat < b₀.toNat
      · rw [if_pos hab] at h1; exact absurd h1 (by simp)
      · by_cases hba : b₀.toNat < a₀.toNat
        · rw [if_pos hba] at h2; exact absurd h2 (by simp)
        · rw [if_neg hab, if_neg hba] at h1
          rw [if_neg hba, if_neg hab] at h2
          have hc : a₀ = b₀ := char_eq_of_toNat_eq a₀ b₀ (by omega)
          rw [hc, ih bs h1 h2]

theorem pyStrLt_irrefl (s : String) : pyStrLt s s = false :=
  charListLt_irrefl s.data

theorem pyStrLt_trans (a b c : String) (h1 : pyStrLt a b = true)
    (h2 : pyStrLt b c = true) : pyStrLt a c = true :=
  charListLt_trans a.data b.data c.data h1 h2

theorem pyStrLt_connex (a b : String) (h1 : pyStrLt a b = false)
    (h2 : pyStrLt b a = false) : a = b := by
  have hd := charListLt_connex a.data b.data h1 h2
  cases a; cases b; simp_all

theorem pyStrLt_ge_trans (a b c : String) (h1 : pyStrLt a b = false)
    (h2 : pyStrLt b c = false) : pyStrLt a c = false := by
  cases hac : pyStrLt a c with
  | false => rfl
  | true =>
    exfalso
    cases hcb : pyStrLt c b with
    | true =>
      have := pyStrLt_trans a c b hac hcb
      rw [this] at h1
      exact Bool.noConfusion h1
    | false =>
      have hbceq : b = c := pyStrLt_connex b c h2 hcb
      rw [hbceq] at h1
      rw [hac] at h1
      exact Bool.noConfusion h1

theorem pyMax_fold_mem (t : List String) (acc : String) :
    t.foldl (fun a b => if pyStrLt a b then b else a) acc = acc ∨
      t.foldl (fun a b => if pyStrLt a b then b else a) acc ∈ t := by
  induction t generalizing acc with
  | nil => exact Or.inl rfl
  | cons x xs ih =>
    simp only [List.foldl_cons]
    rcases ih (if pyStrLt acc x then x else acc) with h | h
    · rw [h]
      by_cases hx : pyStrLt acc x = true
      · simp [hx]
      · simp only [Bool.not_eq_true] at hx
        simp [hx]
    · exact Or.inr (List.mem_cons_of_mem x h)

theorem pyMax_step_ge (acc x : String) :
    pyStrLt (if pyStrLt acc x then x else acc) acc = false ∧
      pyStrLt (if pyStrLt acc x then x else acc) x = false := by
  by_cases h : pyStrLt acc x = true
  · rw [if_pos h]
    refine ⟨?_, pyStrLt_irrefl x⟩
    cases hxa : pyStrLt x acc with
    | false => rfl
    | true =>
      have := pyStrLt_trans acc x acc h hxa
      rw [pyStrLt_irrefl acc] at this
      exact Bool.noConfusion this
  · simp only [Bool.not_eq_true] at h
    rw [if_neg (by simp [h])]
    exact ⟨pyStrLt_irrefl acc, h⟩

theorem pyMax_fold_ge_start (t : List String) (acc : String) :
    pyStrLt (t.foldl (fun a b => if pyStrLt a b then b else a) acc) acc = false := by
  induction t generalizing acc with
  | nil => exact pyStrLt_irrefl acc
  | cons x xs ih =>
    simp only [List.foldl_cons]
    exact pyStrLt_ge_trans _ _ _ (ih (if pyStrLt acc x then x else acc)) (pyMax_step_ge acc x).1

theorem pyMax_fold_ge_mem (t : List String) (acc f : String) (hf : f ∈ t) :
    pyStrLt (t.foldl (fun a b => if pyStrLt a b then b else a) acc) f = false := by
  induction t generalizing acc with
  | nil => simp at hf
  | cons x xs ih =>
    simp only [List.foldl_cons]
    rcases List.mem_cons.mp hf with rfl | hmem
    · exact pyStrLt_ge_trans _ _ _ (pyMax_fold_ge_start xs _) (pyMax_step_ge acc f).2
    · exact ih _ hmem

theorem pyMax_mem (files : List String) (h : files ≠ []) : pyMax files ∈ files := by
  cases files with
  | nil => exact absurd rfl h
  | cons x xs =>
    rcases pyMax_fold_mem xs x with he | he
    · rw [pyMax, he]; exact List.mem_cons_self x xs
    · exact List.mem_cons_of_mem x he

theorem pyMax_ge (files : List String) (f : String) (hf : f ∈ files) :
    pyStrLt (pyMax files) f = false := by
  cases files with
  | nil => simp at hf
  | cons x xs =>
    rcases List.mem_cons.mp hf with rfl | hmem
    · exact pyMax_fold_ge_start xs f
    · exact pyMax_fold_ge_mem xs x f hmem

theorem pyMax_dominates (files : List String) (f : String) (hf : f ∈ files) :
    f = pyMax files ∨ pyStrLt f (pyMax files) = true := by
  cases hlt : pyStrLt f (pyMax files) with
  | true => exact Or.inr rfl
  | false => exact Or.inl (pyStrLt_connex f (pyMax files) hlt (pyMax_ge files f hf))

/- ### The result column never collides with the remote-path column -/

theorem resultsColName_ne_path (d : String) : resultsColName d ≠ LOG_PATH_COLUMN := by
  intro h
  have h1 := congrArg String.data h
  rw [resultsColName, RESULTS_COLUMN_STEM, LOG_PATH_COLUMN, String.data_append] at h1
  have h2 : "analysis_results_".data =
      ['a','n','a','l','y','s','i','s','_','r','e','s','u','l','t','s','_'] := rfl
  have h3 : "remote_log_directory".data =
      ['r','e','m','o','t','e','_','l','o','g','_','d','i','r','e','c','t','o','r','y'] := rfl
  rw [h2, h3] at h1
  simp at h1

/- ### Lemmas on `ensureResultsColumn` -/

theorem firstIdx_ne_of_names_ne (l : List String) (a b : String) (i j : Nat)
    (ha : firstIdx a l = some i) (hb : firstIdx b l = some j) (hab : a ≠ b) : i ≠ j := by
  intro h
  subst h
  have h1 := firstIdx_get? a l i ha
  have h2 := firstIdx_get? b l i hb
  rw [h1] at h2
  exact hab (Option.some.inj h2)

theorem ensure_of_found (df : DataFrame) (rc : String) (j : Nat)
    (h : firstIdx rc df.cols = some j) :
    ensureResultsColumn df rc =
      { df with rows := df.rows.map (fun r => r.set j (some "not_analyzed")) } := by
  simp [ensureResultsColumn, h]

theorem ensure_of_not_found (df : DataFrame) (rc : String)
    (h : firstIdx rc df.cols = none) :
    ensureResultsColumn df rc =
      { cols := listInsertAt rc
          (match firstIdx LOG_PATH_COLUMN df.cols with
           | some i => i + 1
           | none => df.cols.length) df.cols,
        rows := df.rows.map (listInsertAt (some "not_analyzed")
          (match firstIdx LOG_PATH_COLUMN df.cols with
           | some i => i + 1
           | none => df.cols.length)) } := by
  simp [ensureResultsColumn, h]

theorem ensure_pos_le (df : DataFrame) :
    (match firstIdx LOG_PATH_COLUMN df.cols with
     | some i => i + 1
     | none => df.cols.length) ≤ df.cols.length := by
  cases h : firstIdx LOG_PATH_COLUMN df.cols with
  | none => simp
  | some i =>
    have := firstIdx_lt_length LOG_PATH_COLUMN df.cols i h
    simpa using this

theorem ensure_wf (df : DataFrame) (rc : String) (hwf : df.Wf) :
    (ensureResultsColumn df rc).Wf := by
  cases h : firstIdx rc df.cols with
  | some j =>
    rw [ensure_of_found df rc j h]
    intro r hr
    simp only [List.mem_map] at hr
    obtain ⟨r0, hr0, rfl⟩ := hr
    simpa using hwf r0 hr0
  | none =>
    rw [ensure_of_not_found df rc h]
    intro r hr
    simp only [List.mem_map] at hr
    obtain ⟨r0, hr0, rfl⟩ := hr
    have hpos := ensure_pos_le df
    have hlen := hwf r0 hr0
    rw [length_listInsertAt _ _ _ (by omega), length_listInsertAt _ _ _ (by omega), hlen]

theorem ensure_rows_length (df : DataFrame) (rc : String) :
    (ensureResultsColumn df rc).rows.length = df.rows.length := by
  cases h : firstIdx rc df.cols with
  | some j => rw [ensure_of_found df rc j h]; simp
  | none => rw [ensure_of_not_found df rc h]; simp

theorem ensure_resIdx (df : DataFrame) (rc : String) (hwf : df.Wf) :
    ∃ resIdx, firstIdx rc (ensureResultsColumn df rc).cols = some resIdx ∧
      ∀ i r, (ensureResultsColumn df rc).rows.get? i = some r →
        r.get? resIdx = some (some "not_analyzed") := by
  cases h : firstIdx rc df.cols with
  | some j =>
    refine ⟨j, ?_, ?_⟩
    · rw [ensure_of_found df rc j h]; exact h
    · intro i r hr
      rw [ensure_of_found df rc j h] at hr
      simp only [List.get?_map] at hr
      cases hr0 : df.rows.get? i with
      | none => rw [hr0] at hr; simp at hr
      | some r0 =>
        rw [hr0] at hr
        simp only [Option.map_some'] at hr
        cases hr
        have hmem : r0 ∈ df.rows := List.get?_mem hr0
        have hlen := hwf r0 hmem
        have hjlt := firstIdx_lt_length rc df.cols j h
        exact get?_set_self r0 j (some "not_analyzed") (by omega)
  | none =>
    refine ⟨(match firstIdx LOG_PATH_COLUMN df.cols with
             | some i => i + 1
             | none => df.cols.length), ?_, ?_⟩
    · rw [ensure_of_not_found df rc h]
      exact firstIdx_listInsertAt_self rc df.cols _ h (ensure_pos_le df)
    · intro i r hr
      rw [ensure_of_not_found df rc h] at hr
      simp only [List.get?_map] at hr
      cases hr0 : df.rows.get? i with
      | none => rw [hr0] at hr; simp at hr
      | some r0 =>
        rw [hr0] at hr
        simp only [Option.map_some'] at hr
        cases hr
        have hmem : r0 ∈ df.rows := List.get?_mem hr0
        have hlen := hwf r0 hmem
        exact get?_listInsertAt_self (some "not_analyzed") _ r0 (by rw [hlen]; exact ensure_pos_le df)

theorem ensure_pathIdx (df : DataFrame) (rc : String) (pj : Nat)
    (hpj : firstIdx LOG_PATH_COLUMN df.cols = some pj) :
    firstIdx LOG_PATH_COLUMN (ensureResultsColumn df rc).cols = some pj := by
  cases h : firstIdx rc df.cols with
  | some j => rw [ensure_of_found df rc j h]; exact hpj
  | none =>
    rw [ensure_of_not_found df rc h]
    simp only [hpj]
    exact firstIdx_listInsertAt_of_lt LOG_PATH_COLUMN rc df.cols pj (pj + 1) hpj (by omega)

theorem ensure_pathRead (df : DataFrame) (rc : String) (pj : Nat)
    (hne : rc ≠ LOG_PATH_COLUMN) (hpj : firstIdx LOG_PATH_COLUMN df.cols = some pj) :
    ∀ i, ((ensureResultsColumn df rc).rows.get? i).bind (fun r => r.get? pj) =
      (df.rows.get? i).bind (fun r => r.get? pj) := by
  intro i
  cases h : firstIdx rc df.cols with
  | some j =>
    rw [ensure_of_found df rc j h]
    simp only [List.get?_map]
    cases hr0 : df.rows.get? i with
    | none => rfl
    | some r0 =>
      simp only [Option.map_some', Option.bind_some]
      exact get?_set_other r0 j pj (some "not_analyzed")
        (firstIdx_ne_of_names_ne df.cols rc LOG_PATH_COLUMN j pj h hpj hne)
  | none =>
    rw [ensure_of_not_found df rc h]
    simp only [List.get?_map, hpj]
    cases hr0 : df.rows.get? i with
    | none => rfl
    | some r0 =>
      simp only [Option.map_some', Option.bind_some]
      exact get?_listInsertAt_lt (some "not_analyzed") (pj + 1) pj r0 (by omega)

/- ### Rows that differ only in the result column -/

/-- Two rows agree except possibly at index `j`. -/
def OffEq (j : Nat) (r r' : List Cell) : Prop :=
  r' = r ∨ ∃ v, r' = r.set j v

theorem offEq_refl (j : Nat) (r : List Cell) : OffEq j r r := Or.inl rfl

theorem offEq_trans {j : Nat} {r r' r'' : List Cell}
    (h1 : OffEq j r r') (h2 : OffEq j r' r'') : OffEq j r r'' := by
  rcases h1 with rfl | ⟨v, rfl⟩
  · exact h2
  · rcases h2 with rfl | ⟨w, rfl⟩
    · exact Or.inr ⟨v, rfl⟩
    · exact Or.inr ⟨w, List.set_set v w r j⟩

theorem OffEq.get?_other {j : Nat} {r r' : List Cell} (h : OffEq j r r')
    (k : Nat) (hk : k ≠ j) : r'.get? k = r.get? k := by
  rcases h with rfl | ⟨v, rfl⟩
  · rfl
  · exact get?_set_other r j k v (fun e => hk e.symm)

theorem OffEq.set_absorb {j : Nat} {r r' : List Cell} (h : OffEq j r r') (v : Cell) :
    r'.set j v = r.set j v := by
  rcases h with rfl | ⟨w, rfl⟩
  · rfl
  · exact List.set_set w v r j

theorem offEq_length {j : Nat} {r r' : List Cell} (h : OffEq j r r') :
    r'.length = r.length := by
  rcases h with rfl | ⟨v, rfl⟩
  · rfl
  · exact List.length_set r j v

/-- Row lists that agree pointwise except possibly at column `j`. -/
inductive RowsOff (j : Nat) : List (List Cell) → List (List Cell) → Prop
  | nil : RowsOff j [] []
  | cons {r r' : List Cell} {R R' : List (List Cell)} :
      OffEq j r r' → RowsOff j R R' → RowsOff j (r :: R) (r' :: R')

theorem rowsOff_refl (j : Nat) (R : List (List Cell)) : RowsOff j R R := by
  induction R with
  | nil => exact RowsOff.nil
  | cons r R ih => exact RowsOff.cons (offEq_refl j r) ih

theorem rowsOff_trans {j : Nat} {R R' R'' : List (List Cell)}
    (h1 : RowsOff j R R') (h2 : RowsOff j R' R'') : RowsOff j R R'' := by
  induction h1 generalizing R'' with
  | nil => cases h2; exact RowsOff.nil
  | cons hr hR ih =>
    cases h2 with
    | cons hr' hR' => exact RowsOff.cons (offEq_trans hr hr') (ih hR')

theorem rowsOff_length {j : Nat} {R R' : List (List Cell)} (h : RowsOff j R R') :
    R'.length = R.length := by
  induction h with
  | nil => rfl
  | cons _ _ ih => simpa using ih

theorem RowsOff.get? {j : Nat} {R R' : List (List Cell)} (h : RowsOff j R R') (i : Nat) :
    (R.get? i = none ∧ R'.get? i = none) ∨
      ∃ r r', R.get? i = some r ∧ R'.get? i = some r' ∧ OffEq j r r' := by
  induction h generalizing i with
  | nil => exact Or.inl ⟨rfl, rfl⟩
  | cons hr hR ih =>
    cases i with
    | zero => exact Or.inr ⟨_, _, rfl, rfl, hr⟩
    | succ n => simpa using ih n

/- ### Characterization of the matching pass -/

theorem applyRows_fst_get? (p j : Nat) (b s : String) (rs : List (List Cell)) (k i : Nat) :
    (applyRows p j b s k rs).1.get? i =
      (rs.get? i).map (fun r => if matchRow p b r then r.set j (some s) else r) := by
  induction rs generalizing k i with
  | nil => simp [applyRows]
  | cons r rs ih =>
    cases i with
    | zero =>
      by_cases hm : matchRow p b r
      · simp [applyRows, hm]
      · simp [applyRows, hm]
    | succ n =>
      by_cases hm : matchRow p b r
      · simpa [applyRows, hm] using ih (k + 1) n
      · simpa [applyRows, hm] using ih (k + 1) n

theorem applyRows_snd_mem (p j : Nat) (b s : String) (rs : List (List Cell)) (k m : Nat) :
    m ∈ (applyRows p j b s k rs).2 ↔
      ∃ i r, m = k + i ∧ rs.get? i = some r ∧ matchRow p b r = true := by
  induction rs generalizing k with
  | nil =>
    simp only [applyRows, List.not_mem_nil, false_iff]
    rintro ⟨i, r, _, hr, _⟩
    simp at hr
  | cons r rs ih =>
    by_cases hm : matchRow p b r
    · simp only [applyRows, hm, if_true, List.mem_cons]
      constructor
      · rintro (rfl | hmem)
        · exact ⟨0, r, by omega, rfl, hm⟩
        · obtain ⟨i, r', hi, hr', hmr'⟩ := (ih (k + 1)).mp hmem
          exact ⟨i + 1, r', by omega, by simpa using hr', hmr'⟩
      · rintro ⟨i, r', hi, hr', hmr'⟩
        cases i with
        | zero =>
          left; omega
        | succ n =>
          right
          exact (ih (k + 1)).mpr ⟨n, r', by omega, by simpa using hr', hmr'⟩
    · simp only [applyRows, hm, if_false]
      constructor
      · intro hmem
        obtain ⟨i, r', hi, hr', hmr'⟩ := (ih (k + 1)).mp hmem
        exact ⟨i + 1, r', by omega, by simpa using hr', hmr'⟩
      · rintro ⟨i, r', hi, hr', hmr'⟩
        cases i with
        | zero =>
          simp only [List.get?] at hr'
          cases hr'
          exact absurd hmr' (by simpa using hm)
        | succ n =>
          exact (ih (k + 1)).mpr ⟨n, r', by omega, by simpa using hr', hmr'⟩

theorem applyRows_rowsOff (p j : Nat) (b s : String) (rs : List (List Cell)) (k : Nat) :
    RowsOff j rs (applyRows p j b s k rs).1 := by
  induction rs generalizing k with
  | nil => exact RowsOff.nil
  | cons r rs ih =>
    by_cases hm : matchRow p b r
    · simpa [applyRows, hm] using RowsOff.cons (Or.inr ⟨some s, rfl⟩) (ih (k + 1))
    · simpa [applyRows, hm] using RowsOff.cons (offEq_refl j r) (ih (k + 1))

theorem applyEntry_rowsOff (p j : Nat) (st : List (List Cell) × List Nat)
    (e : String × String) : RowsOff j st.1 (applyEntry p j st e).1 := by
  by_cases hs : e.2 = "directory_not_found" ∨ e.2 = "directory_list_error"
  · simp only [applyEntry, if_pos hs]
    exact rowsOff_refl j st.1
  · simp only [applyEntry, if_neg hs]
    exact applyRows_rowsOff p j (baseJobName e.1) e.2 st.1 0

theorem matchFold_rowsOff (p j : Nat) (l : List (String × String))
    (st : List (List Cell) × List Nat) :
    RowsOff j st.1 (l.foldl (applyEntry p j) st).1 := by
  induction l generalizing st with
  | nil => exact rowsOff_refl j st.1
  | cons e l ih =>
    simp only [List.foldl_cons]
    exact rowsOff_trans (applyEntry_rowsOff p j st e) (ih (applyEntry p j st e))

theorem matchPass_rowsOff (p j : Nat) (res : List (String × String))
    (rows : List (List Cell)) : RowsOff j rows (matchPass p j res rows).1 :=
  matchFold_rowsOff p j res (rows, [])

/-- Statuses actually applied by the matching pass: those of a
classification entry that is not skipped as an internal error marker. -/
def EntryStatus (res : List (String × String)) (s : String) : Prop :=
  ∃ f, (f, s) ∈ res ∧ s ≠ "directory_not_found" ∧ s ≠ "directory_list_error"

/-- Invariant of the matching loop relating the current rows and
`analyzed_rows` to the initial rows `R0`: a row is either untouched and
unanalyzed, or it carries an applied status in the result column and its
index is recorded in `analyzed_rows`. -/
def MatchInv (resIdx : Nat) (res : List (String × String)) (R0 R : List (List Cell))
    (A : List Nat) : Prop :=
  ∀ i, (R.get? i = R0.get? i ∧ i ∉ A) ∨
    (∃ s r0, EntryStatus res s ∧ R0.get? i = some r0 ∧
      R.get? i = some (r0.set resIdx (some s)) ∧ i ∈ A)

theorem applyEntry_inv (p resIdx : Nat) (res : List (String × String))
    (R0 : List (List Cell)) (st : List (List Cell) × List Nat) (e : String × String)
    (he : e ∈ res) (hinv : MatchInv resIdx res R0 st.1 st.2) :
    MatchInv resIdx res R0 (applyEntry p resIdx st e).1 (applyEntry p resIdx st e).2 := by
  by_cases hs : e.2 = "directory_not_found" ∨ e.2 = "directory_list_error"
  · simpa only [applyEntry, if_pos hs] using hinv
  · simp only [applyEntry, if_neg hs]
    intro i
    have hfst := applyRows_fst_get? p resIdx (baseJobName e.1) e.2 st.1 0 i
    have hestat : EntryStatus res e.2 := by
      refine ⟨e.1, ?_, ?_, ?_⟩
      · have : (e.1, e.2) = e := by cases e; rfl
        rw [this]; exact he
      · intro h; exact hs (Or.inl h)
      · intro h; exact hs (Or.inr h)
    rcases hinv i with ⟨hR, hA⟩ | ⟨s, r0, hst, hR0, hR, hA⟩
    · cases hr0 : R0.get? i with
      | none =>
        left
        constructor
        · rw [hfst, hR, hr0]; simp [hr0]
        · intro hmem
          rcases List.mem_append.mp hmem with h | h
          · exact hA h
          · obtain ⟨i', r', hi', hr', _⟩ := (applyRows_snd_mem p resIdx _ _ st.1 0 i).mp h
            have hii : i' = i := by omega
            subst hii
            rw [hR, hr0] at hr'
            exact Option.noConfusion hr'
      | some r0 =>
        by_cases hm : matchRow p (baseJobName e.1) r0
        · right
          refine ⟨e.2, r0, hestat, rfl, ?_, ?_⟩
          · rw [hfst, hR, hr0]
            simp [hm]
          · apply List.mem_append.mpr
            right
            exact (applyRows_snd_mem p resIdx _ _ st.1 0 i).mpr
              ⟨i, r0, by omega, by rw [hR, hr0], by simpa using hm⟩
        · left
          constructor
          · rw [hfst, hR, hr0]
            simp [hm, hr0]
          · intro hmem
            rcases List.mem_append.mp hmem with h | h
            · exact hA h
            · obtain ⟨i', r', hi', hr', hmr'⟩ :=
                (applyRows_snd_mem p resIdx _ _ st.1 0 i).mp h
              have hii : i' = i := by omega
              subst hii
              rw [hR, hr0] at hr'
              cases hr'
              exact absurd hmr' (by simpa using hm)
    · by_cases hm : matchRow p (baseJobName e.1) (r0.set resIdx (some s))
      · right
        refine ⟨e.2, r0, hestat, hR0, ?_, ?_⟩
        · rw [hfst, hR]
          simp only [Option.map_some', hm, if_true]
          rw [List.set_set]
        · exact List.mem_append.mpr (Or.inl hA)
      · right
        refine ⟨s, r0, hst, hR0, ?_, ?_⟩
        · rw [hfst, hR]
          simp [hm]
        · exact List.mem_append.mpr (Or.inl hA)

theorem matchFold_inv (p resIdx : Nat) (res : List (String × String))
    (R0 : List (List Cell)) (l : List (String × String))
    (st : List (List Cell) × List Nat)
    (hl : ∀ e ∈ l, e ∈ res) (hinv : MatchInv resIdx res R0 st.1 st.2) :
    MatchInv resIdx res R0 (l.foldl (applyEntry p resIdx) st).1
      (l.foldl (applyEntry p resIdx) st).2 := by
  induction l generalizing st with
  | nil => exact hinv
  | cons e l ih =>
    simp only [List.foldl_cons]
    exact ih (applyEntry p resIdx st e)
      (fun e' he' => hl e' (List.mem_cons_of_mem e he'))
      (applyEntry_inv p resIdx res R0 st e (hl e (List.mem_cons_self e l)) hinv)

theorem matchPass_inv (p resIdx : Nat) (res : List (String × String))
    (rows : List (List Cell)) :
    MatchInv resIdx res rows (matchPass p resIdx res rows).1
      (matchPass p resIdx res rows).2 := by
  apply matchFold_inv p resIdx res rows res (rows, []) (fun e he => he)
  intro i
  exact Or.inl ⟨rfl, by simp⟩

/- ### Characterization of the fallback pass -/

theorem fallbackRows_get? (p j : Nat) (prob : List String) (A : List Nat)
    (rs : List (List Cell)) (k i : Nat) :
    (fallbackRows p j prob A k rs).get? i =
      (rs.get? i).map (fallbackRow p j prob A (k + i)) := by
  induction rs generalizing k i with
  | nil => simp [fallbackRows]
  | cons r rs ih =>
    cases i with
    | zero => simp [fallbackRows]
    | succ n =>
      have harith : k + 1 + n = k + (n + 1) := by omega
      calc (fallbackRows p j prob A k (r :: rs)).get? (n + 1)
          = (fallbackRows p j prob A (k + 1) rs).get? n := rfl
        _ = (rs.get? n).map (fallbackRow p j prob A (k + 1 + n)) := ih (k + 1) n
        _ = ((r :: rs).get? (n + 1)).map (fallbackRow p j prob A (k + (n + 1))) := by
            rw [harith]; rfl

theorem fallbackRow_offEq (p j : Nat) (prob : List String) (A : List Nat)
    (i : Nat) (r : List Cell) : OffEq j r (fallbackRow p j prob A i r) := by
  simp only [fallbackRow]
  repeat' split
  all_goals first
    | exact offEq_refl j r
    | exact Or.inr ⟨_, rfl⟩

theorem fallbackRows_rowsOff (p j : Nat) (prob : List String) (A : List Nat)
    (rs : List (List Cell)) (k : Nat) :
    RowsOff j rs (fallbackRows p j prob A k rs) := by
  induction rs generalizing k with
  | nil => exact RowsOff.nil
  | cons r rs ih =>
    exact RowsOff.cons (fallbackRow_offEq p j prob A k r) (ih (k + 1))

/- ### Lemmas on the download loop -/

/-- Rows whose listing step fails or yields no entries (lines 190-196 and
213-225): any of the three caught exception classes, or an empty listing. -/
def ListFailsOrEmpty (env : RemoteEnv) (p : String) : Prop :=
  env.listdir p = .notFound ∨ env.listdir p = .ioError ∨
    env.listdir p = .otherError ∨ env.listdir p = .ok []

theorem string_contains_iff (l : List String) (a : String) :
    l.contains a = true ↔ a ∈ l := by
  simp [List.contains, List.elem_iff]

theorem addProblem_mem_self (l : List String) (p : String) : p ∈ addProblem l p := by
  unfold addProblem
  by_cases h : l.contains p
  · rw [if_pos h]
    exact (string_contains_iff l p).mp h
  · rw [if_neg h]
    exact List.mem_append.mpr (Or.inr (List.mem_singleton.mpr rfl))

theorem addProblem_mono (l : List String) (p q : String) (h : q ∈ l) :
    q ∈ addProblem l p := by
  unfold addProblem
  by_cases hc : l.contains p
  · rw [if_pos hc]; exact h
  · rw [if_neg hc]; exact List.mem_append.mpr (Or.inl h)

theorem addProblem_nodup (l : List String) (p : String) (h : l.Nodup) :
    (addProblem l p).Nodup := by
  unfold addProblem
  by_cases hc : l.contains p
  · rw [if_pos hc]; exact h
  · rw [if_neg hc]
    rw [List.nodup_append]
    refine ⟨h, List.nodup_singleton p, ?_⟩
    intro x hx hx'
    rw [List.mem_singleton] at hx'
    subst hx'
    exact hc ((string_contains_iff l x).mpr hx)

theorem dlStep_problematic_mono (env : RemoteEnv) (st : DLState) (c : Option String)
    (q : String) (h : q ∈ st.problematic) : q ∈ (dlStep env st c).problematic := by
  cases c with
  | none => exact h
  | some rp =>
    simp only [dlStep]
    by_cases he : rp = ""
    · rw [if_pos he]; exact h
    · rw [if_neg he]
      cases env.listdir rp with
      | ok files =>
        by_cases hf : files = []
        · simpa [hf] using addProblem_mono st.problematic rp q h
        · simp only [if_neg hf]
          by_cases hd : st.downloaded.contains (pyMax files)
          · simp only [hd, if_true]; exact h
          · simp only [hd]
            by_cases hg : env.getOk (rstripSlash rp ++ "/" ++ pyMax files)
            · simp [hg, h]
            · simpa [hg] using addProblem_mono st.problematic rp q h
      | notFound => exact addProblem_mono st.problematic rp q h
      | ioError => exact addProblem_mono st.problematic rp q h
      | otherError => exact addProblem_mono st.problematic rp q h

theorem dlStep_nodup (env : RemoteEnv) (st : DLState) (c : Option String)
    (h : st.problematic.Nodup) : (dlStep env st c).problematic.Nodup := by
  cases c with
  | none => exact h
  | some rp =>
    simp only [dlStep]
    by_cases he : rp = ""
    · rw [if_pos he]; exact h
    · rw [if_neg he]
      cases env.listdir rp with
      | ok files =>
        by_cases hf : files = []
        · simpa [hf] using addProblem_nodup st.problematic rp h
        · simp only [if_neg hf]
          by_cases hd : st.downloaded.contains (pyMax files)
          · simp only [hd, if_true]; exact h
          · simp only [hd]
            by_cases hg : env.getOk (rstripSlash rp ++ "/" ++ pyMax files)
            · simp [hg, h]
            · simpa [hg] using addProblem_nodup st.problematic rp h
      | notFound => exact addProblem_nodup st.problematic rp h
      | ioError => exact addProblem_nodup st.problematic rp h
      | otherError => exact addProblem_nodup st.problematic rp h

theorem dlFold_mono (env : RemoteEnv) (cells : List (Option String)) (st : DLState)
    (q : String) (h : q ∈ st.problematic) :
    q ∈ (cells.foldl (dlStep env) st).problematic := by
  induction cells generalizing st with
  | nil => exact h
  | cons c cs ih =>
    exact ih (dlStep env st c) (dlStep_problematic_mono env st c q h)

theorem dlFold_nodup (env : RemoteEnv) (cells : List (Option String)) (st : DLState)
    (h : st.problematic.Nodup) : (cells.foldl (dlStep env) st).problematic.Nodup := by
  induction cells generalizing st with
  | nil => exact h
  | cons c cs ih => exact ih (dlStep env st c) (dlStep_nodup env st c h)

theorem dlStep_records_listFail (env : RemoteEnv) (st : DLState) (p : String)
    (hp : p ≠ "") (hfail : ListFailsOrEmpty env p) :
    p ∈ (dlStep env st (some p)).problematic := by
  simp only [dlStep]
  rw [if_neg hp]
  rcases hfail with h | h | h | h
  · rw [h]; exact addProblem_mem_self st.problematic p
  · rw [h]; exact addProblem_mem_self st.problematic p
  · rw [h]; exact addProblem_mem_self st.problematic p
  · rw [h]; simpa using addProblem_mem_self st.problematic p

theorem dlFold_records_listFail (env : RemoteEnv) (cells : List (Option String))
    (st : DLState) (p : String) (hmem : (some p) ∈ cells) (hp : p ≠ "")
    (hfail : ListFailsOrEmpty env p) :
    p ∈ (cells.foldl (dlStep env) st).problematic := by
  induction cells generalizing st with
  | nil => simp at hmem
  | cons c cs ih =>
    rcases List.mem_cons.mp hmem with hc | hc
    · simp only [List.foldl_cons]
      exact dlFold_mono env cs (dlStep env st c) p
        (hc ▸ dlStep_records_listFail env st p hp hfail)
    · exact ih (dlStep env st c) hc

/- ### Plumbing for `update_tracker_with_results` -/

theorem get?_of_lt {α : Type} (l : List α) (i : Nat) (h : i < l.length) :
    ∃ a, l.get? i = some a := by
  induction l generalizing i with
  | nil => simp at h
  | cons x xs ih =>
    cases i with
    | zero => exact ⟨x, rfl⟩
    | succ n => simpa using ih n (by simpa using h)

theorem mem_exists_get? {α : Type} (l : List α) (a : α) (h : a ∈ l) :
    ∃ i, l.get? i = some a := by
  induction l with
  | nil => simp at h
  | cons x xs ih =>
    rcases List.mem_cons.mp h with rfl | h'
    · exact ⟨0, rfl⟩
    · obtain ⟨i, hi⟩ := ih h'
      exact ⟨i + 1, by simpa using hi⟩

theorem nat_contains_iff (l : List Nat) (a : Nat) : l.contains a = true ↔ a ∈ l := by
  simp [List.contains, List.elem_iff]

theorem firstIdx_listInsertAt_none (name a : String) (l : List String) (n : Nat)
    (h : firstIdx name l = none) (ha : a ≠ name) :
    firstIdx name (listInsertAt a n l) = none := by
  induction l generalizing n with
  | nil =>
    cases n with
    | zero => simp [listInsertAt, firstIdx, ha]
    | succ m => simp [listInsertAt, firstIdx]
  | cons c cs ih =>
    by_cases hc : c = name
    · simp [firstIdx, hc] at h
    · simp [firstIdx, hc] at h
      cases n with
      | zero => simp [listInsertAt, firstIdx, ha, hc, h]
      | succ m => simp [listInsertAt, firstIdx, hc, ih m h]

theorem rowsOff_map_set {j : Nat} {R R' : List (List Cell)} (h : RowsOff j R R')
    (v : Cell) : R'.map (fun r => r.set j v) = R.map (fun r => r.set j v) := by
  induction h with
  | nil => rfl
  | cons hr hR ih =>
    simp only [List.map_cons, ih, List.cons.injEq, and_true]
    exact hr.set_absorb v

theorem rowsOff_map_set_self (j : Nat) (R : List (List Cell)) (v : Cell) :
    RowsOff j R (R.map (fun r => r.set j v)) := by
  induction R with
  | nil => exact RowsOff.nil
  | cons r R ih => exact RowsOff.cons (Or.inr ⟨v, rfl⟩) ih

theorem RowsOff.all_lengths {j : Nat} {R R' : List (List Cell)} (h : RowsOff j R R')
    (n : Nat) (hn : ∀ r ∈ R, r.length = n) : ∀ r' ∈ R', r'.length = n := by
  induction h with
  | nil => intro r hr; simp at hr
  | cons hr hR ih =>
    intro r' hr'
    rcases List.mem_cons.mp hr' with rfl | h'
    · rw [offEq_length hr]
      exact hn _ (List.mem_cons_self _ _)
    · exact ih (fun r h0 => hn r (List.mem_cons_of_mem _ h0)) r' h'

theorem map_set_id (R : List (List Cell)) (j : Nat) (v : Cell)
    (h : ∀ i r, R.get? i = some r → r.get? j = some v) :
    R.map (fun r => r.set j v) = R := by
  induction R with
  | nil => rfl
  | cons r R ih =>
    simp only [List.map_cons, List.cons.injEq]
    constructor
    · exact set_of_get? r j v (h 0 r rfl)
    · exact ih (fun i r' hr' => h (i + 1) r' (by simpa using hr'))

/-- The successful shape of `update_tracker_with_results` when the
remote-path column exists: the result column's index, the unchanged
remote-path index, and the output frame in terms of the three passes. -/
theorem update_shape (df : DataFrame) (res : List (String × String)) (d : String)
    (prob : List String) (hwf : df.Wf) (pj : Nat)
    (hpj : firstIdx LOG_PATH_COLUMN df.cols = some pj) :
    ∃ resIdx,
      firstIdx (resultsColName d) (ensureResultsColumn df (resultsColName d)).cols
        = some resIdx ∧
      firstIdx LOG_PATH_COLUMN (ensureResultsColumn df (resultsColName d)).cols
        = some pj ∧
      resIdx ≠ pj ∧
      update_tracker_with_results df res d prob = .ok
        { cols := (ensureResultsColumn df (resultsColName d)).cols,
          rows := fallbackRows pj resIdx prob
            (matchPass pj resIdx res (ensureResultsColumn df (resultsColName d)).rows).2 0
            (matchPass pj resIdx res (ensureResultsColumn df (resultsColName d)).rows).1 } := by
  obtain ⟨resIdx, hr, _⟩ := ensure_resIdx df (resultsColName d) hwf
  have hp := ensure_pathIdx df (resultsColName d) pj hpj
  have hne : resIdx ≠ pj :=
    firstIdx_ne_of_names_ne _ _ _ _ _ hr hp (resultsColName_ne_path d)
  refine ⟨resIdx, hr, hp, hne, ?_⟩
  simp only [update_tracker_with_results, hr, hp]

/- ### Claim C1 -/

/-- Test that a line contains at least one of the three markers. -/
def lineHasMarker (l : String) : Bool :=
  strContains l SUCCESS_KEYWORD || strContains l FAILURE_KEYWORD ||
    strContains l ERROR_KEYWORD

/-- Stated from the specification's words: the status of a readable file is
decided by the first line, scanning from the last line toward the first,
that contains a marker substring, with per-line priority success over
failure over error; `unknown` when no line contains a marker. -/
def specTailStatus (content : List String) : String :=
  match content.reverse.find? lineHasMarker with
  | none => "unknown"
  | some l =>
    if strContains l SUCCESS_KEYWORD then "success"
    else if strContains l FAILURE_KEYWORD then "failure"
    else "error"

theorem classifyRev_eq_specScan (ls : List String) :
    classifyRev ls =
      (match ls.find? lineHasMarker with
       | none => "unknown"
       | some l =>
         if strContains l SUCCESS_KEYWORD then "success"
         else if strContains l FAILURE_KEYWORD then "failure"
         else "error") := by
  induction ls with
  | nil => rfl
  | cons l rest ih =>
    by_cases hS : strContains l SUCCESS_KEYWORD
    · simp [classifyRev, List.find?, lineHasMarker, hS]
    · by_cases hF : strContains l FAILURE_KEYWORD
      · simp [classifyRev, List.find?, lineHasMarker, hS, hF]
      · by_cases hE : strContains l ERROR_KEYWORD
        · simp [classifyRev, List.find?, lineHasMarker, hS, hF, hE]
        · simp [classifyRev, List.find?, lineHasMarker, hS, hF, hE, ih]

theorem classifyContent_eq_specTailStatus (content : List String) :
    classifyContent content = specTailStatus content := by
  rw [classifyContent, specTailStatus, classifyRev_eq_specScan]

/-- C1: for every local directory and every readable file in it, the
classifier assigns the status of the first line from the end that contains
a marker, success checked before failure before error on that line, and
`unknown` when no line contains a marker. -/
theorem C1_last_marker_decides (files : List (String × FileRead)) (n : String)
    (content : List String) (hmem : (n, FileRead.lines content) ∈ files) :
    (n, specTailStatus content) ∈ analyze_downloaded_logs (.present files) := by
  rw [analyze_downloaded_logs]
  apply List.mem_map.mpr
  refine ⟨(n, FileRead.lines content), hmem, ?_⟩
  simp [classifyFile, classifyContent_eq_specTailStatus]

/-- Witness for C1 at a concrete directory: the last marker line wins
(a failure banner after a success line yields `failure`). -/
theorem C1_witness :
    ("job-1.log", specTailStatus ["Execution Return Code: 0", "*** Failure"]) ∈
      analyze_downloaded_logs (.present
        [("job-1.log", FileRead.lines ["Execution Return Code: 0", "*** Failure"])]) ∧
    specTailStatus ["Execution Return Code: 0", "*** Failure"] = "failure" := by
  constructor
  · exact C1_last_marker_decides _ _ _ (List.mem_singleton.mpr rfl)
  · decide

/- ### Claim C5 -/

theorem classifyRev_cases (ls : List String) :
    classifyRev ls = "success" ∨ classifyRev ls = "failure" ∨
      classifyRev ls = "error" ∨ classifyRev ls = "unknown" := by
  induction ls with
  | nil => simp [classifyRev]
  | cons l rest ih =>
    by_cases hS : strContains l SUCCESS_KEYWORD
    · simp [classifyRev, hS]
    · by_cases hF : strContains l FAILURE_KEYWORD
      · simp [classifyRev, hS, hF]
      · by_cases hE : strContains l ERROR_KEYWORD
        · simp [classifyRev, hS, hF, hE]
        · simpa [classifyRev, hS, hF, hE] using ih

theorem classifyFile_ne_dirNotFound (c : FileRead) :
    classifyFile c ≠ "directory_not_found" := by
  cases c with
  | lines content =>
    rcases classifyRev_cases content.reverse with h | h | h | h <;>
      simp [classifyFile, classifyContent, h]
  | vanished => simp [classifyFile]
  | readFailed => simp [classifyFile]

/-- C5: classifying an existing empty directory yields the empty mapping;
classifying a missing directory yields the distinct directory error, which
differs from the classification of every existing directory (so callers
can always tell the two apart). -/
theorem C5_directory_error_distinct :
    analyze_downloaded_logs (.present []) = [] ∧
    analyze_downloaded_logs .absent = [("error", "directory_not_found")] ∧
    ∀ files, analyze_downloaded_logs (.present files) ≠ analyze_downloaded_logs .absent := by
  refine ⟨rfl, rfl, ?_⟩
  intro files h
  rw [analyze_downloaded_logs, analyze_downloaded_logs] at h
  cases files with
  | nil => exact List.noConfusion h
  | cons fc rest =>
    simp only [List.map_cons, List.cons.injEq] at h
    have h1 : classifyFile fc.2 = "directory_not_found" := congrArg Prod.snd h.1
    exact classifyFile_ne_dirNotFound fc.2 h1

/-- Witness for C5: even a directory containing a file literally named
`error` is distinguishable from the missing-directory error. -/
theorem C5_witness :
    analyze_downloaded_logs (.present [("error", FileRead.vanished)]) ≠
      analyze_downloaded_logs .absent :=
  C5_directory_error_distinct.2.2 [("error", FileRead.vanished)]

/- ### Claim C6 -/

/-- C6: with an established session the row loop always runs to
completion (per-row listing failures, empty listings and copy failures are
recorded, never raised), the recorded problem list has no duplicates, a
row whose listing fails or is empty is always recorded, a row whose copy
fails is recorded by its step, and only session-establishment failures
surface as errors. -/
theorem C6_row_errors_recorded_not_raised :
    (∀ (env : RemoteEnv) (cells : List (Option String)),
      ∃ st, download_latest_logs (.ok env) cells = .ok st ∧
        st.problematic.Nodup ∧
        (∀ p, some p ∈ cells → p ≠ "" → ListFailsOrEmpty env p → p ∈ st.problematic)) ∧
    (∀ (env : RemoteEnv) (st : DLState) (rp : String) (files : List String),
      rp ≠ "" → env.listdir rp = .ok files → files ≠ [] →
      st.downloaded.contains (pyMax files) = false →
      env.getOk (rstripSlash rp ++ "/" ++ pyMax files) = false →
      rp ∈ (dlStep env st (some rp)).problematic) ∧
    (∀ cells : List (Option String),
      download_latest_logs .authFail cells = .error "AuthenticationException" ∧
      download_latest_logs .sshFail cells = .error "SSHException" ∧
      download_latest_logs .timedOut cells = .error "TimeoutError") := by
  refine ⟨?_, ?_, ?_⟩
  · intro env cells
    refine ⟨cells.foldl (dlStep env) ⟨[], [], []⟩, rfl, ?_, ?_⟩
    · exact dlFold_nodup env cells ⟨[], [], []⟩ List.nodup_nil
    · intro p hmem hp hfail
      exact dlFold_records_listFail env cells ⟨[], [], []⟩ p hmem hp hfail
  · intro env st rp files hrp hlist hne hdl hget
    simp only [dlStep]
    rw [if_neg hrp, hlist]
    simp only [if_neg hne, hdl, Bool.false_eq_true, if_false, hget]
    exact addProblem_mem_self st.problematic rp
  · intro cells
    exact ⟨rfl, rfl, rfl⟩

/-- Witness for C6 at a concrete environment: a path whose listing raises
is recorded while the run still returns normally, and a copy failure is
recorded by its step. -/
theorem C6_witness :
    (∃ st, download_latest_logs
        (.ok ⟨fun _ => ListOutcome.notFound, fun _ => true⟩) [some "/gone"] = .ok st ∧
      "/gone" ∈ st.problematic) ∧
    "/a" ∈ (dlStep ⟨fun _ => ListOutcome.ok ["f-1.log"], fun _ => false⟩
        ⟨[], [], []⟩ (some "/a")).problematic := by
  constructor
  · obtain ⟨st, hok, _, hrec⟩ :=
      C6_row_errors_recorded_not_raised.1 ⟨fun _ => ListOutcome.notFound, fun _ => true⟩
        [some "/gone"]
    exact ⟨st, hok, hrec "/gone" (by simp) (by decide) (Or.inl rfl)⟩
  · exact C6_row_errors_recorded_not_raised.2.1
      ⟨fun _ => ListOutcome.ok ["f-1.log"], fun _ => false⟩ ⟨[], [], []⟩
      "/a" ["f-1.log"] (by decide) rfl (by decide) (by decide) rfl

/- ### Claim C7 -/

/-- C7: on a successful non-empty listing the chosen entry is the string
maximum of the listing (it belongs to the listing and every other entry is
equal or strictly below it); if that filename was already downloaded in
this run the step changes nothing (no copy, and the path is not marked
problematic); otherwise, when the copy succeeds, exactly that maximal
entry is copied. -/
theorem C7_picks_lexicographic_max (env : RemoteEnv) (st : DLState) (rp : String)
    (files : List String) (hrp : rp ≠ "") (hlist : env.listdir rp = .ok files)
    (hne : files ≠ []) :
    (pyMax files ∈ files ∧
      ∀ f ∈ files, f = pyMax files ∨ pyStrLt f (pyMax files) = true) ∧
    (st.downloaded.contains (pyMax files) = true → dlStep env st (some rp) = st) ∧
    (st.downloaded.contains (pyMax files) = false →
      env.getOk (rstripSlash rp ++ "/" ++ pyMax files) = true →
      dlStep env st (some rp) =
        { st with downloaded := st.downloaded ++ [pyMax files],
                  copies := st.copies ++
                    [(rstripSlash rp ++ "/" ++ pyMax files, pyMax files)] }) := by
  refine ⟨⟨pyMax_mem files hne, fun f hf => pyMax_dominates files f hf⟩, ?_, ?_⟩
  · intro hdl
    simp only [dlStep]
    rw [if_neg hrp, hlist]
    simp only [if_neg hne]
    rw [if_pos hdl]
  · intro hdl hget
    simp only [dlStep]
    rw [if_neg hrp, hlist]
    simp only [if_neg hne]
    rw [if_neg (show ¬ st.downloaded.contains (pyMax files) = true from
          fun hc => by rw [hdl] at hc; exact Bool.noConfusion hc),
        if_pos hget]

/-- Witness for C7 at a concrete listing: the lexicographically greatest
file is selected, and a duplicate filename leaves the state untouched. -/
theorem C7_witness :
    pyMax ["job-20250101.log", "job-20250505.log", "job-20250303.log"] ∈
      ["job-20250101.log", "job-20250505.log", "job-20250303.log"] ∧
    dlStep ⟨fun _ => ListOutcome.ok ["job-20250101.log", "job-20250505.log",
        "job-20250303.log"], fun _ => true⟩
      ⟨[], ["job-20250505.log"], []⟩ (some "/a") = ⟨[], ["job-20250505.log"], []⟩ := by
  have h := C7_picks_lexicographic_max
    ⟨fun _ => ListOutcome.ok ["job-20250101.log", "job-20250505.log", "job-20250303.log"],
      fun _ => true⟩
    ⟨[], ["job-20250505.log"], []⟩ "/a"
    ["job-20250101.log", "job-20250505.log", "job-20250303.log"]
    (by decide) rfl (by decide)
  exact ⟨h.1.1, h.2.1 (by decide)⟩

/- ### Claim C4 -/

/-- C4: a classified filename whose derived base job identifier (the part
before the first hyphen, else the stem) equals the final segment of a
row's remote path sets that row's result-column value to the classified
status. -/
theorem C4_filename_matches_path_tail (df : DataFrame) (f s d : String)
    (prob : List String) (hwf : df.Wf) (pj : Nat)
    (hpj : firstIdx LOG_PATH_COLUMN df.cols = some pj)
    (hs1 : s ≠ "directory_not_found") (hs2 : s ≠ "directory_list_error")
    (hs3 : s ≠ "not_analyzed") (i : Nat) (p : String)
    (hp : getCell df LOG_PATH_COLUMN i = some p) (hpe : p ≠ "")
    (hid : pathIdentifier p = baseJobName f) :
    ∃ dfOut, update_tracker_with_results df [(f, s)] d prob = .ok dfOut ∧
      getCell dfOut (resultsColName d) i = some s := by
  obtain ⟨resIdx, hr, hp', hne, hupd⟩ := update_shape df [(f, s)] d prob hwf pj hpj
  rw [getCell, hpj] at hp
  have hpath1 : (((ensureResultsColumn df (resultsColName d)).rows.get? i).bind
      (fun r => r.get? pj)).join = some p := by
    rw [ensure_pathRead df (resultsColName d) pj (resultsColName_ne_path d) hpj i]
    exact hp
  cases hE : (ensureResultsColumn df (resultsColName d)).rows.get? i with
  | none => rw [hE] at hpath1; simp at hpath1
  | some r0 =>
    rw [hE] at hpath1
    simp only [Option.some_bind] at hpath1
    have hm : matchRow pj (baseJobName f) r0 = true := by
      unfold matchRow
      rw [hpath1]
      simp [hpe, hid]
    have hsent : ¬(s = "directory_not_found" ∨ s = "directory_list_error") := by
      simp [hs1, hs2]
    have hms1 : (matchPass pj resIdx [(f, s)]
        (ensureResultsColumn df (resultsColName d)).rows).1.get? i =
        some (r0.set resIdx (some s)) := by
      rw [matchPass]
      simp only [List.foldl_cons, List.foldl_nil]
      simp only [applyEntry, if_neg hsent]
      rw [applyRows_fst_get?, hE]
      simp [hm]
    have hlen : resIdx < r0.length := by
      have hmem : r0 ∈ (ensureResultsColumn df (resultsColName d)).rows := List.get?_mem hE
      have := ensure_wf df (resultsColName d) hwf r0 hmem
      rw [this]
      exact firstIdx_lt_length _ _ _ hr
    have hcur : ((r0.set resIdx (some s)).get? resIdx).join = some s := by
      rw [get?_set_self r0 resIdx (some s) hlen]; rfl
    have hcurne : ¬(((r0.set resIdx (some s)).get? resIdx).join = some "not_analyzed") := by
      rw [hcur]
      intro hh
      exact hs3 (Option.some.inj hh)
    have hrp : ((r0.set resIdx (some s)).get? pj).join = some p := by
      rw [get?_set_other r0 resIdx pj (some s) hne]
      exact hpath1
    have hfb : fallbackRow pj resIdx prob
        (matchPass pj resIdx [(f, s)] (ensureResultsColumn df (resultsColName d)).rows).2
        i (r0.set resIdx (some s)) = r0.set resIdx (some s) := by
      simp only [fallbackRow, hrp]
      by_cases hpc : prob.contains p
      · rw [if_pos hpc, if_neg hcurne]
      · rw [if_neg hpc, if_neg (fun h => hcurne h.2)]
    refine ⟨_, hupd, ?_⟩
    rw [getCell]
    simp only [hr]
    rw [fallbackRows_get?, hms1, Nat.zero_add]
    simp only [Option.map_some', hfb, Option.some_bind]
    exact hcur

/-- Concrete table for the C4 witness: the spec's worked example. -/
def exampleTracker : DataFrame :=
  { cols := ["domain", "remote_log_directory"],
    rows := [[some "finance", some "/logs/finance/billing/job_invoice_gen"]] }

/-- Witness for C4: the spec's example — one row with remote path
`/logs/finance/billing/job_invoice_gen`, classification
`job_invoice_gen-20250505_120000.log ↦ success`, date `20250505`. -/
theorem C4_witness :
    ∃ dfOut, update_tracker_with_results exampleTracker
        [("job_invoice_gen-20250505_120000.log", "success")] "20250505" [] = .ok dfOut ∧
      getCell dfOut (resultsColName "20250505") 0 = some "success" := by
  apply C4_filename_matches_path_tail exampleTracker
    "job_invoice_gen-20250505_120000.log" "success" "20250505" [] ?_ 1 (by decide)
    (by decide) (by decide) (by decide) 0 "/logs/finance/billing/job_invoice_gen"
    (by decide) (by decide) (by decide)
  intro r hr
  simp only [exampleTracker, List.mem_singleton] at hr
  subst hr
  rfl

/- ### Claim C2 -/

theorem fallbackRow_of_na (p j : Nat) (prob : List String) (A : List Nat) (i : Nat)
    (r : List Cell) (hcell : (r.get? j).join = some "not_analyzed")
    (hA : A.contains i = false) :
    fallbackRow p j prob A i r =
      match (r.get? p).join with
      | some q =>
        if prob.contains q then r.set j (some "access_error")
        else if q = "" then r.set j (some "missing_path")
        else r.set j (some "log_not_found_or_analyzed")
      | none => r.set j (some "missing_path") := by
  unfold fallbackRow
  cases hq : (r.get? p).join with
  | some q =>
    show (if prob.contains q = true then
            if (r.get? j).join = some "not_analyzed" then r.set j (some "access_error") else r
          else if A.contains i = false ∧ (r.get? j).join = some "not_analyzed" then
            if q = "" then r.set j (some "missing_path")
            else r.set j (some "log_not_found_or_analyzed")
          else r) =
        (if prob.contains q = true then r.set j (some "access_error")
         else if q = "" then r.set j (some "missing_path")
         else r.set j (some "log_not_found_or_analyzed"))
    by_cases hpc : prob.contains q = true
    · rw [if_pos hpc, if_pos hpc, if_pos hcell]
    · rw [if_neg hpc, if_neg hpc, if_pos ⟨hA, hcell⟩]
  | none =>
    show (if A.contains i = false ∧ (r.get? j).join = some "not_analyzed" then
            r.set j (some "missing_path")
          else r) = r.set j (some "missing_path")
    rw [if_pos ⟨hA, hcell⟩]

/-- C2: every row whose result cell is still `not_analyzed` after the
matching pass ends at `access_error` when its remote path is recorded in
the problem list, else at `missing_path` when the path cell is absent or
blank, else at `log_not_found_or_analyzed`. -/
theorem C2_fallback_statuses (df : DataFrame) (res : List (String × String)) (d : String)
    (prob : List String) (hwf : df.Wf) (pj : Nat)
    (hpj : firstIdx LOG_PATH_COLUMN df.cols = some pj)
    (hna : ∀ e ∈ res, e.2 ≠ "not_analyzed") (resIdx : Nat)
    (hr : firstIdx (resultsColName d) (ensureResultsColumn df (resultsColName d)).cols
      = some resIdx)
    (i : Nat) (r : List Cell)
    (hrow : (matchPass pj resIdx res
      (ensureResultsColumn df (resultsColName d)).rows).1.get? i = some r)
    (hcell : (r.get? resIdx).join = some "not_analyzed") :
    ∃ dfOut, update_tracker_with_results df res d prob = .ok dfOut ∧
      getCell dfOut (resultsColName d) i = some
        (match (r.get? pj).join with
         | some q =>
           if prob.contains q then "access_error"
           else if q = "" then "missing_path" else "log_not_found_or_analyzed"
         | none => "missing_path") ∧
      (match (r.get? pj).join with
       | some q =>
         if prob.contains q then "access_error"
         else if q = "" then "missing_path" else "log_not_found_or_analyzed"
       | none => "missing_path") ∈
        (["access_error", "missing_path", "log_not_found_or_analyzed"] : List String) := by
  obtain ⟨resIdx', hr', hp', hne', hupd⟩ := update_shape df res d prob hwf pj hpj
  have hre : resIdx' = resIdx := Option.some.inj (hr'.symm.trans hr)
  subst hre
  rcases matchPass_inv pj resIdx' res (ensureResultsColumn df (resultsColName d)).rows i with
    ⟨heq, hA⟩ | ⟨s, r0, hst, hR0, hRi, hAin⟩
  · -- the row was untouched by matching
    have hEr : (ensureResultsColumn df (resultsColName d)).rows.get? i = some r :=
      heq.symm.trans hrow
    have hlen : resIdx' < r.length := by
      have hmem : r ∈ (ensureResultsColumn df (resultsColName d)).rows := List.get?_mem hEr
      have := ensure_wf df (resultsColName d) hwf r hmem
      rw [this]
      exact firstIdx_lt_length _ _ _ hr
    have hnotc : (matchPass pj resIdx' res
        (ensureResultsColumn df (resultsColName d)).rows).2.contains i = false := by
      cases hb : (matchPass pj resIdx' res
          (ensureResultsColumn df (resultsColName d)).rows).2.contains i with
      | false => rfl
      | true => exact absurd ((nat_contains_iff _ _).mp hb) hA
    refine ⟨_, hupd, ?_, ?_⟩
    · rw [getCell]
      simp only [hr]
      rw [fallbackRows_get?, hrow, Nat.zero_add]
      simp only [Option.map_some', Option.some_bind]
      rw [fallbackRow_of_na pj resIdx' prob _ i r hcell hnotc]
      cases hq : (r.get? pj).join with
      | some q =>
        show ((if prob.contains q = true then r.set resIdx' (some "access_error")
               else if q = "" then r.set resIdx' (some "missing_path")
               else r.set resIdx' (some "log_not_found_or_analyzed")).get? resIdx').join =
            some (if prob.contains q = true then "access_error"
                  else if q = "" then "missing_path" else "log_not_found_or_analyzed")
        by_cases hpc : prob.contains q = true
        · rw [if_pos hpc, if_pos hpc, get?_set_self r resIdx' (some "access_error") hlen]
          rfl
        · by_cases hqe : q = ""
          · rw [if_neg hpc, if_neg hpc, if_pos hqe, if_pos hqe,
                get?_set_self r resIdx' (some "missing_path") hlen]
            rfl
          · rw [if_neg hpc, if_neg hpc, if_neg hqe, if_neg hqe,
                get?_set_self r resIdx' (some "log_not_found_or_analyzed") hlen]
            rfl
      | none =>
        show ((r.set resIdx' (some "missing_path")).get? resIdx').join = some "missing_path"
        rw [get?_set_self r resIdx' (some "missing_path") hlen]
        rfl
    · cases hq2 : (r.get? pj).join with
      | some q =>
        show (if prob.contains q = true then "access_error"
              else if q = "" then "missing_path"
              else "log_not_found_or_analyzed") ∈
            (["access_error", "missing_path", "log_not_found_or_analyzed"] : List String)
        by_cases hpc : prob.contains q = true
        · rw [if_pos hpc]
          decide
        · by_cases hqe : q = ""
          · rw [if_neg hpc, if_pos hqe]
            decide
          · rw [if_neg hpc, if_neg hqe]
            decide
      | none =>
        show ("missing_path" : String) ∈
          (["access_error", "missing_path", "log_not_found_or_analyzed"] : List String)
        decide
  · -- a matched row cannot still carry `not_analyzed`
    exfalso
    have hrr : r = r0.set resIdx' (some s) := Option.some.inj (hrow.symm.trans hRi)
    subst hrr
    have hmem : r0 ∈ (ensureResultsColumn df (resultsColName d)).rows := List.get?_mem hR0
    have hlen0 : resIdx' < r0.length := by
      have := ensure_wf df (resultsColName d) hwf r0 hmem
      rw [this]
      exact firstIdx_lt_length _ _ _ hr
    rw [get?_set_self r0 resIdx' (some s) hlen0] at hcell
    have hs : s = "not_analyzed" := Option.some.inj hcell
    obtain ⟨f0, hf0, _, _⟩ := hst
    exact hna (f0, s) hf0 hs

/-- Concrete table for the C2 witness: a problematic path, a blank path
and an unmatched path. -/
def fallbackTracker : DataFrame :=
  { cols := ["remote_log_directory"],
    rows := [[some "/bad/path"], [none], [some "/no/match"]] }

/-- Witness for C2 covering all three fallback outcomes: a problematic
unmatched path ends at `access_error`, a blank path at `missing_path`,
and a valid unmatched path at `log_not_found_or_analyzed`. -/
theorem C2_witness :
    (∃ dfOut, update_tracker_with_results fallbackTracker [] "20250101" ["/bad/path"]
        = .ok dfOut ∧
      getCell dfOut (resultsColName "20250101") 0 = some "access_error") ∧
    (∃ dfOut, update_tracker_with_results fallbackTracker [] "20250101" ["/bad/path"]
        = .ok dfOut ∧
      getCell dfOut (resultsColName "20250101") 1 = some "missing_path") ∧
    (∃ dfOut, update_tracker_with_results fallbackTracker [] "20250101" ["/bad/path"]
        = .ok dfOut ∧
      getCell dfOut (resultsColName "20250101") 2 = some "log_not_found_or_analyzed") := by
  refine ⟨?_, ?_, ?_⟩
  · obtain ⟨dfOut, h1, h2, _⟩ :=
      C2_fallback_statuses fallbackTracker [] "20250101" ["/bad/path"]
        (by intro r hr; fin_cases hr <;> rfl)
        0 (by decide) (by simp) 1 (by decide) 0 [some "/bad/path", some "not_analyzed"]
        (by decide) (by decide)
    refine ⟨dfOut, h1, ?_⟩
    rw [h2]
    decide
  · obtain ⟨dfOut, h1, h2, _⟩ :=
      C2_fallback_statuses fallbackTracker [] "20250101" ["/bad/path"]
        (by intro r hr; fin_cases hr <;> rfl)
        0 (by decide) (by simp) 1 (by decide) 1 [none, some "not_analyzed"]
        (by decide) (by decide)
    refine ⟨dfOut, h1, ?_⟩
    rw [h2]
    decide
  · obtain ⟨dfOut, h1, h2, _⟩ :=
      C2_fallback_statuses fallbackTracker [] "20250101" ["/bad/path"]
        (by intro r hr; fin_cases hr <;> rfl)
        0 (by decide) (by simp) 1 (by decide) 2 [some "/no/match", some "not_analyzed"]
        (by decide) (by decide)
    refine ⟨dfOut, h1, ?_⟩
    rw [h2]
    decide

/- ### Claims C9 and C10 -/

theorem fallbackRow_of_analyzed (p j : Nat) (prob : List String) (A : List Nat)
    (i : Nat) (r : List Cell) (hcur : (r.get? j).join ≠ some "not_analyzed") :
    fallbackRow p j prob A i r = r := by
  unfold fallbackRow
  cases hq : (r.get? p).join with
  | some q =>
    show (if prob.contains q = true then
            if (r.get? j).join = some "not_analyzed" then r.set j (some "access_error") else r
          else if A.contains i = false ∧ (r.get? j).join = some "not_analyzed" then
            if q = "" then r.set j (some "missing_path")
            else r.set j (some "log_not_found_or_analyzed")
          else r) = r
    by_cases hpc : prob.contains q = true
    · rw [if_pos hpc, if_neg hcur]
    · rw [if_neg hpc, if_neg (fun h => hcur h.2)]
  | none =>
    show (if A.contains i = false ∧ (r.get? j).join = some "not_analyzed" then
            r.set j (some "missing_path")
          else r) = r
    rw [if_neg (fun h => hcur h.2)]

theorem fallbackRow_cases (p j : Nat) (prob : List String) (A : List Nat)
    (i : Nat) (r : List Cell) :
    fallbackRow p j prob A i r = r ∨
    fallbackRow p j prob A i r = r.set j (some "access_error") ∨
    fallbackRow p j prob A i r = r.set j (some "missing_path") ∨
    fallbackRow p j prob A i r = r.set j (some "log_not_found_or_analyzed") := by
  simp only [fallbackRow]
  repeat' split
  all_goals first
    | exact Or.inl rfl
    | exact Or.inr (Or.inl rfl)
    | exact Or.inr (Or.inr (Or.inl rfl))
    | exact Or.inr (Or.inr (Or.inr rfl))

/-- C9: when every classified status lies in the classifier's output set,
no row's value in the date's result column remains `not_analyzed`; every
row ends with a value in the closed nine-status set. -/
theorem C9_every_row_settled (df : DataFrame) (res : List (String × String))
    (d : String) (prob : List String) (hwf : df.Wf) (pj : Nat)
    (hpj : firstIdx LOG_PATH_COLUMN df.cols = some pj)
    (hstat : ∀ e ∈ res, e.2 ∈ (["success", "failure", "error", "unknown",
      "not_found", "parse_error"] : List String))
    (i : Nat) (hi : i < df.rows.length) :
    ∃ dfOut v, update_tracker_with_results df res d prob = .ok dfOut ∧
      getCell dfOut (resultsColName d) i = some v ∧ v ≠ "not_analyzed" ∧
      v ∈ (["success", "failure", "error", "unknown", "not_found", "parse_error",
            "access_error", "missing_path", "log_not_found_or_analyzed"] : List String) := by
  obtain ⟨resIdx, hr, hp', hne, hupd⟩ := update_shape df res d prob hwf pj hpj
  obtain ⟨resIdx0, hr0, hinit⟩ := ensure_resIdx df (resultsColName d) hwf
  have hre : resIdx0 = resIdx := Option.some.inj (hr0.symm.trans hr)
  subst hre
  have hiE : i < (ensureResultsColumn df (resultsColName d)).rows.length := by
    rw [ensure_rows_length]; exact hi
  obtain ⟨r0, hE⟩ := get?_of_lt _ i hiE
  have hmem0 : r0 ∈ (ensureResultsColumn df (resultsColName d)).rows := List.get?_mem hE
  have hlen0 : resIdx0 < r0.length := by
    rw [ensure_wf df (resultsColName d) hwf r0 hmem0]
    exact firstIdx_lt_length _ _ _ hr
  have hinitcell : r0.get? resIdx0 = some (some "not_analyzed") := hinit i r0 hE
  rcases matchPass_inv pj resIdx0 res (ensureResultsColumn df (resultsColName d)).rows i with
    ⟨heq, hA⟩ | ⟨s, r1, hst, hR0, hRi, hAin⟩
  · -- untouched row: the fallback writes one of the three fallback statuses
    have hrow : (matchPass pj resIdx0 res
        (ensureResultsColumn df (resultsColName d)).rows).1.get? i = some r0 :=
      heq.trans hE
    have hcell : (r0.get? resIdx0).join = some "not_analyzed" := by rw [hinitcell]; rfl
    have hnotc : (matchPass pj resIdx0 res
        (ensureResultsColumn df (resultsColName d)).rows).2.contains i = false := by
      cases hb : (matchPass pj resIdx0 res
          (ensureResultsColumn df (resultsColName d)).rows).2.contains i with
      | false => rfl
      | true => exact absurd ((nat_contains_iff _ _).mp hb) hA
    have hgc : ∀ v : String,
        ((r0.set resIdx0 (some v)).get? resIdx0).join = some v := by
      intro v
      rw [get?_set_self r0 resIdx0 (some v) hlen0]
      rfl
    cases hq : (r0.get? pj).join with
    | some q =>
      by_cases hpc : prob.contains q = true
      · refine ⟨_, "access_error", hupd, ?_, by decide, by decide⟩
        rw [getCell]
        simp only [hr]
        rw [fallbackRows_get?, hrow, Nat.zero_add]
        simp only [Option.map_some', Option.some_bind]
        rw [fallbackRow_of_na pj resIdx0 prob _ i r0 hcell hnotc, hq]
        show ((if prob.contains q = true then r0.set resIdx0 (some "access_error")
               else if q = "" then r0.set resIdx0 (some "missing_path")
               else r0.set resIdx0 (some "log_not_found_or_analyzed")).get? resIdx0).join =
            some "access_error"
        rw [if_pos hpc]
        exact hgc "access_error"
      · by_cases hqe : q = ""
        · refine ⟨_, "missing_path", hupd, ?_, by decide, by decide⟩
          rw [getCell]
          simp only [hr]
          rw [fallbackRows_get?, hrow, Nat.zero_add]
          simp only [Option.map_some', Option.some_bind]
          rw [fallbackRow_of_na pj resIdx0 prob _ i r0 hcell hnotc, hq]
          show ((if prob.contains q = true then r0.set resIdx0 (some "access_error")
                 else if q = "" then r0.set resIdx0 (some "missing_path")
                 else r0.set resIdx0 (some "log_not_found_or_analyzed")).get? resIdx0).join =
              some "missing_path"
          rw [if_neg hpc, if_pos hqe]
          exact hgc "missing_path"
        · refine ⟨_, "log_not_found_or_analyzed", hupd, ?_, by decide, by decide⟩
          rw [getCell]
          simp only [hr]
          rw [fallbackRows_get?, hrow, Nat.zero_add]
          simp only [Option.map_some', Option.some_bind]
          rw [fallbackRow_of_na pj resIdx0 prob _ i r0 hcell hnotc, hq]
          show ((if prob.contains q = true then r0.set resIdx0 (some "access_error")
                 else if q = "" then r0.set resIdx0 (some "missing_path")
                 else r0.set resIdx0 (some "log_not_found_or_analyzed")).get? resIdx0).join =
              some "log_not_found_or_analyzed"
          rw [if_neg hpc, if_neg hqe]
          exact hgc "log_not_found_or_analyzed"
    | none =>
      refine ⟨_, "missing_path", hupd, ?_, by decide, by decide⟩
      rw [getCell]
      simp only [hr]
      rw [fallbackRows_get?, hrow, Nat.zero_add]
      simp only [Option.map_some', Option.some_bind]
      rw [fallbackRow_of_na pj resIdx0 prob _ i r0 hcell hnotc, hq]
      show ((r0.set resIdx0 (some "missing_path")).get? resIdx0).join = some "missing_path"
      exact hgc "missing_path"
  · -- matched row: it keeps its classifier status
    have hr1 : r1 = r0 := Option.some.inj (hR0.symm.trans hE)
    subst hr1
    have hscur : ((r1.set resIdx0 (some s)).get? resIdx0).join = some s := by
      rw [get?_set_self r1 resIdx0 (some s) hlen0]
      rfl
    have hsix : s ∈ (["success", "failure", "error", "unknown",
        "not_found", "parse_error"] : List String) := by
      obtain ⟨f0, hf0, _, _⟩ := hst
      exact hstat (f0, s) hf0
    have hsna : s ≠ "not_analyzed" := by
      intro hna0
      subst hna0
      simp at hsix
    have hfb : fallbackRow pj resIdx0 prob
        (matchPass pj resIdx0 res (ensureResultsColumn df (resultsColName d)).rows).2 i
        (r1.set resIdx0 (some s)) = r1.set resIdx0 (some s) := by
      apply fallbackRow_of_analyzed
      rw [hscur]
      intro hh
      exact hsna (Option.some.inj hh)
    refine ⟨_, s, hupd, ?_, hsna, ?_⟩
    · rw [getCell]
      simp only [hr]
      rw [fallbackRows_get?, hRi, Nat.zero_add]
      simp only [Option.map_some', Option.some_bind, hfb]
      exact hscur
    · simp only [List.mem_cons, List.mem_singleton] at hsix ⊢
      tauto

/-- Witness for C9 at a concrete table: a blank-path row ends settled at a
value of the closed set. -/
theorem C9_witness :
    ∃ dfOut v, update_tracker_with_results fallbackTracker [] "20250303" [] = .ok dfOut ∧
      getCell dfOut (resultsColName "20250303") 1 = some v ∧ v ≠ "not_analyzed" ∧
      v ∈ (["success", "failure", "error", "unknown", "not_found", "parse_error",
            "access_error", "missing_path", "log_not_found_or_analyzed"] : List String) :=
  C9_every_row_settled fallbackTracker [] "20250303" []
    (by intro r hr; fin_cases hr <;> rfl) 0 (by decide) (by simp) 1 (by decide)

/-- C10: statuses carrying the classifier's internal directory-error
markers are skipped by the merge, so those sentinel values can never
appear in the date's result column. -/
theorem C10_internal_markers_never_merged (df : DataFrame) (res : List (String × String))
    (d : String) (prob : List String) (hwf : df.Wf) (pj : Nat)
    (hpj : firstIdx LOG_PATH_COLUMN df.cols = some pj) (dfOut : DataFrame)
    (hok : update_tracker_with_results df res d prob = .ok dfOut)
    (i : Nat) (v : String) (hcell : getCell dfOut (resultsColName d) i = some v) :
    v ≠ "directory_not_found" ∧ v ≠ "directory_list_error" := by
  obtain ⟨resIdx, hr, hp', hne, hupd⟩ := update_shape df res d prob hwf pj hpj
  obtain ⟨resIdx0, hr0, hinit⟩ := ensure_resIdx df (resultsColName d) hwf
  have hre : resIdx0 = resIdx := Option.some.inj (hr0.symm.trans hr)
  subst hre
  have hdf : dfOut =
      { cols := (ensureResultsColumn df (resultsColName d)).cols,
        rows := fallbackRows pj resIdx0 prob
          (matchPass pj resIdx0 res (ensureResultsColumn df (resultsColName d)).rows).2 0
          (matchPass pj resIdx0 res (ensureResultsColumn df (resultsColName d)).rows).1 } := by
    have := hok.symm.trans hupd
    exact Except.ok.inj this
  subst hdf
  rw [getCell] at hcell
  simp only [hr] at hcell
  rw [fallbackRows_get?] at hcell
  cases hms : (matchPass pj resIdx0 res
      (ensureResultsColumn df (resultsColName d)).rows).1.get? i with
  | none => rw [hms] at hcell; simp at hcell
  | some r =>
    rw [hms, Nat.zero_add] at hcell
    simp only [Option.map_some', Option.some_bind] at hcell
    -- length of the row, via the invariant
    rcases matchPass_inv pj resIdx0 res (ensureResultsColumn df (resultsColName d)).rows i with
      ⟨heq, hA⟩ | ⟨s, r1, hst, hR0, hRi, hAin⟩
    · have hE : (ensureResultsColumn df (resultsColName d)).rows.get? i = some r :=
        heq.symm.trans hms
      have hmem : r ∈ (ensureResultsColumn df (resultsColName d)).rows := List.get?_mem hE
      have hlen : resIdx0 < r.length := by
        rw [ensure_wf df (resultsColName d) hwf r hmem]
        exact firstIdx_lt_length _ _ _ hr
      have hrcell : r.get? resIdx0 = some (some "not_analyzed") := hinit i r hE
      rcases fallbackRow_cases pj resIdx0 prob
          (matchPass pj resIdx0 res (ensureResultsColumn df (resultsColName d)).rows).2 i r with
        hc | hc | hc | hc <;> rw [hc] at hcell
      · rw [hrcell] at hcell
        have : v = "not_analyzed" := (Option.some.inj hcell).symm
        subst this
        exact ⟨by decide, by decide⟩
      · rw [get?_set_self r resIdx0 _ hlen] at hcell
        have : v = "access_error" := (Option.some.inj hcell).symm
        subst this
        exact ⟨by decide, by decide⟩
      · rw [get?_set_self r resIdx0 _ hlen] at hcell
        have : v = "missing_path" := (Option.some.inj hcell).symm
        subst this
        exact ⟨by decide, by decide⟩
      · rw [get?_set_self r resIdx0 _ hlen] at hcell
        have : v = "log_not_found_or_analyzed" := (Option.some.inj hcell).symm
        subst this
        exact ⟨by decide, by decide⟩
    · have hrr : r = r1.set resIdx0 (some s) := Option.some.inj (hms.symm.trans hRi)
      subst hrr
      have hmem1 : r1 ∈ (ensureResultsColumn df (resultsColName d)).rows := List.get?_mem hR0
      have hlen1 : resIdx0 < r1.length := by
        rw [ensure_wf df (resultsColName d) hwf r1 hmem1]
        exact firstIdx_lt_length _ _ _ hr
      have hlen : resIdx0 < (r1.set resIdx0 (some s)).length := by
        rw [List.length_set]
        exact hlen1
      obtain ⟨f0, hf0, hs1, hs2⟩ := hst
      rcases fallbackRow_cases pj resIdx0 prob
          (matchPass pj resIdx0 res (ensureResultsColumn df (resultsColName d)).rows).2 i
          (r1.set resIdx0 (some s)) with
        hc | hc | hc | hc <;> rw [hc] at hcell
      · rw [get?_set_self r1 resIdx0 _ hlen1] at hcell
        have : v = s := (Option.some.inj hcell).symm
        subst this
        exact ⟨hs1, hs2⟩
      · rw [List.set_set, get?_set_self r1 resIdx0 _ hlen1] at hcell
        have : v = "access_error" := (Option.some.inj hcell).symm
        subst this
        exact ⟨by decide, by decide⟩
      · rw [List.set_set, get?_set_self r1 resIdx0 _ hlen1] at hcell
        have : v = "missing_path" := (Option.some.inj hcell).symm
        subst this
        exact ⟨by decide, by decide⟩
      · rw [List.set_set, get?_set_self r1 resIdx0 _ hlen1] at hcell
        have : v = "log_not_found_or_analyzed" := (Option.some.inj hcell).symm
        subst this
        exact ⟨by decide, by decide⟩

/-- Concrete table and output for the C10 witness: one sentinel-status
entry, skipped, so the row falls back to `log_not_found_or_analyzed`. -/
def sentinelTracker : DataFrame :=
  { cols := ["remote_log_directory"], rows := [[some "/p"]] }

/-- Witness for C10: with a sentinel-status classification entry the
result cell holds the fallback value, never a sentinel. -/
theorem C10_witness :
    getCell
      { cols := ["remote_log_directory", "analysis_results_20250404"],
        rows := [[some "/p", some "log_not_found_or_analyzed"]] }
      (resultsColName "20250404") 0 = some "log_not_found_or_analyzed" ∧
    "log_not_found_or_analyzed" ≠ "directory_not_found" ∧
    "log_not_found_or_analyzed" ≠ "directory_list_error" := by
  refine ⟨by decide, ?_⟩
  exact C10_internal_markers_never_merged sentinelTracker
    [("x-1.log", "directory_not_found")] "20250404" []
    (by intro r hr; fin_cases hr <;> rfl) 0 (by decide)
    { cols := ["remote_log_directory", "analysis_results_20250404"],
      rows := [[some "/p", some "log_not_found_or_analyzed"]] }
    (by rfl) 0 "log_not_found_or_analyzed" (by decide)

/- ### Claim C3 -/

/-- C3: exactly one result column per date is managed. An existing column
is reset (no second column is added); an absent one is inserted right
after the remote-path column, or appended at the end when that column is
missing, initialized to `not_analyzed`; and running the merge twice with
the same inputs returns the same table as running it once. -/
theorem C3_one_result_column_per_date (df : DataFrame) (res : List (String × String))
    (d : String) (prob : List String) (hwf : df.Wf) :
    (resultsColName d ∈ df.cols →
      (ensureResultsColumn df (resultsColName d)).cols = df.cols) ∧
    (∀ pj, firstIdx LOG_PATH_COLUMN df.cols = some pj → resultsColName d ∉ df.cols →
      (ensureResultsColumn df (resultsColName d)).cols =
        listInsertAt (resultsColName d) (pj + 1) df.cols) ∧
    (firstIdx LOG_PATH_COLUMN df.cols = none → resultsColName d ∉ df.cols →
      (ensureResultsColumn df (resultsColName d)).cols = df.cols ++ [resultsColName d]) ∧
    (∀ resIdx, firstIdx (resultsColName d)
        (ensureResultsColumn df (resultsColName d)).cols = some resIdx →
      ∀ i r, (ensureResultsColumn df (resultsColName d)).rows.get? i = some r →
        r.get? resIdx = some (some "not_analyzed")) ∧
    (∀ pj, firstIdx LOG_PATH_COLUMN df.cols = some pj →
      ∃ dfOut, update_tracker_with_results df res d prob = .ok dfOut ∧
        update_tracker_with_results dfOut res d prob = .ok dfOut) := by
  refine ⟨?_, ?_, ?_, ?_, ?_⟩
  · intro hmem
    obtain ⟨j, hj⟩ := firstIdx_isSome_of_mem _ _ hmem
    rw [ensure_of_found df _ j hj]
  · intro pj hpj hnot
    rw [ensure_of_not_found df _ (firstIdx_none_of_not_mem _ _ hnot)]
    simp only [hpj]
  · intro hpnone hnot
    rw [ensure_of_not_found df _ (firstIdx_none_of_not_mem _ _ hnot)]
    simp only [hpnone]
    exact listInsertAt_length_eq_append (resultsColName d) df.cols
  · intro resIdx hrIdx i r hrow
    obtain ⟨resIdx0, hr0, hinit⟩ := ensure_resIdx df (resultsColName d) hwf
    have : resIdx0 = resIdx := Option.some.inj (hr0.symm.trans hrIdx)
    subst this
    exact hinit i r hrow
  · intro pj hpj
    obtain ⟨resIdx, hr, hp', hne, hupd⟩ := update_shape df res d prob hwf pj hpj
    obtain ⟨resIdx0, hr0, hinit⟩ := ensure_resIdx df (resultsColName d) hwf
    have hre : resIdx0 = resIdx := Option.some.inj (hr0.symm.trans hr)
    subst hre
    refine ⟨_, hupd, ?_⟩
    have hro : RowsOff resIdx0 (ensureResultsColumn df (resultsColName d)).rows
        (fallbackRows pj resIdx0 prob
          (matchPass pj resIdx0 res (ensureResultsColumn df (resultsColName d)).rows).2 0
          (matchPass pj resIdx0 res (ensureResultsColumn df (resultsColName d)).rows).1) :=
      rowsOff_trans
        (matchPass_rowsOff pj resIdx0 res
          (ensureResultsColumn df (resultsColName d)).rows)
        (fallbackRows_rowsOff pj resIdx0 prob
          (matchPass pj resIdx0 res (ensureResultsColumn df (resultsColName d)).rows).2
          (matchPass pj resIdx0 res (ensureResultsColumn df (resultsColName d)).rows).1 0)
    have hrows : (fallbackRows pj resIdx0 prob
        (matchPass pj resIdx0 res (ensureResultsColumn df (resultsColName d)).rows).2 0
        (matchPass pj resIdx0 res (ensureResultsColumn df (resultsColName d)).rows).1).map
          (fun r => r.set resIdx0 (some "not_analyzed")) =
        (ensureResultsColumn df (resultsColName d)).rows := by
      rw [rowsOff_map_set hro]
      exact map_set_id _ resIdx0 (some "not_analyzed") hinit
    have hens : ensureResultsColumn
        { cols := (ensureResultsColumn df (resultsColName d)).cols,
          rows := fallbackRows pj resIdx0 prob
            (matchPass pj resIdx0 res (ensureResultsColumn df (resultsColName d)).rows).2 0
            (matchPass pj resIdx0 res (ensureResultsColumn df (resultsColName d)).rows).1 }
        (resultsColName d) = ensureResultsColumn df (resultsColName d) := by
      rw [ensure_of_found
        { cols := (ensureResultsColumn df (resultsColName d)).cols,
          rows := fallbackRows pj resIdx0 prob
            (matchPass pj resIdx0 res (ensureResultsColumn df (resultsColName d)).rows).2 0
            (matchPass pj resIdx0 res (ensureResultsColumn df (resultsColName d)).rows).1 }
        (resultsColName d) resIdx0 hr]
      show ({ cols := (ensureResultsColumn df (resultsColName d)).cols,
              rows := (fallbackRows pj resIdx0 prob
                (matchPass pj resIdx0 res
                  (ensureResultsColumn df (resultsColName d)).rows).2 0
                (matchPass pj resIdx0 res
                  (ensureResultsColumn df (resultsColName d)).rows).1).map
                (fun r => r.set resIdx0 (some "not_analyzed")) } : DataFrame) =
          ensureResultsColumn df (resultsColName d)
      rw [hrows]
    simp only [update_tracker_with_results, hens, hr, hp']

/-- Witness for C3 at a concrete table: the new column lands right after
the remote-path column and a second merge with the same inputs is the
identity. -/
theorem C3_witness :
    (ensureResultsColumn fallbackTracker (resultsColName "20250101")).cols =
      listInsertAt (resultsColName "20250101") 1 fallbackTracker.cols ∧
    ∃ dfOut, update_tracker_with_results fallbackTracker [] "20250101" [] = .ok dfOut ∧
      update_tracker_with_results dfOut [] "20250101" [] = .ok dfOut := by
  have h := C3_one_result_column_per_date fallbackTracker [] "20250101" []
    (by intro r hr; fin_cases hr <;> rfl)
  exact ⟨h.2.1 0 (by decide) (by decide), h.2.2.2.2 0 (by decide)⟩

/- ### Claim C8 -/

/-- C8: the merge modifies only the one result column named for the date:
every other column keeps every value, and the number and order of rows is
preserved (each row keeps its index). -/
theorem C8_only_result_column_changes (df : DataFrame) (res : List (String × String))
    (d : String) (prob : List String) (hwf : df.Wf) (pj : Nat)
    (hpj : firstIdx LOG_PATH_COLUMN df.cols = some pj)
    (name : String) (hname : name ≠ resultsColName d) (i : Nat) :
    ∃ dfOut, update_tracker_with_results df res d prob = .ok dfOut ∧
      dfOut.rows.length = df.rows.length ∧
      getCell dfOut name i = getCell df name i := by
  obtain ⟨resIdx, hr, hp', hne, hupd⟩ := update_shape df res d prob hwf pj hpj
  have hro : RowsOff resIdx (ensureResultsColumn df (resultsColName d)).rows
      (fallbackRows pj resIdx prob
        (matchPass pj resIdx res (ensureResultsColumn df (resultsColName d)).rows).2 0
        (matchPass pj resIdx res (ensureResultsColumn df (resultsColName d)).rows).1) :=
    rowsOff_trans
      (matchPass_rowsOff pj resIdx res
        (ensureResultsColumn df (resultsColName d)).rows)
      (fallbackRows_rowsOff pj resIdx prob
        (matchPass pj resIdx res (ensureResultsColumn df (resultsColName d)).rows).2
        (matchPass pj resIdx res (ensureResultsColumn df (resultsColName d)).rows).1 0)
  refine ⟨_, hupd, ?_, ?_⟩
  · show (fallbackRows pj resIdx prob
      (matchPass pj resIdx res (ensureResultsColumn df (resultsColName d)).rows).2 0
      (matchPass pj resIdx res (ensureResultsColumn df (resultsColName d)).rows).1).length =
        df.rows.length
    rw [rowsOff_length hro]
    exact ensure_rows_length df (resultsColName d)
  · have hrcnename : resultsColName d ≠ name := fun e => hname e.symm
    cases hfi : firstIdx name df.cols with
    | none =>
      -- the column is absent on both sides
      have hfiE : firstIdx name (ensureResultsColumn df (resultsColName d)).cols = none := by
        cases hfound : firstIdx (resultsColName d) df.cols with
        | some k => rw [ensure_of_found df _ k hfound]; exact hfi
        | none =>
          rw [ensure_of_not_found df _ hfound]
          exact firstIdx_listInsertAt_none name (resultsColName d) df.cols _ hfi hrcnename
      rw [getCell, getCell]
      simp only [hfi, hfiE]
    | some j =>
      cases hfound : firstIdx (resultsColName d) df.cols with
      | some k =>
        -- result column already present: the column layout is unchanged
        have hcolsE : (ensureResultsColumn df (resultsColName d)).cols = df.cols := by
          rw [ensure_of_found df _ k hfound]
        have hfiE : firstIdx name (ensureResultsColumn df (resultsColName d)).cols = some j := by
          rw [hcolsE]; exact hfi
        have hjne : j ≠ resIdx := by
          apply firstIdx_ne_of_names_ne (ensureResultsColumn df (resultsColName d)).cols
            name (resultsColName d) j resIdx hfiE hr
          exact hname
        have hro0 : RowsOff resIdx df.rows
            (ensureResultsColumn df (resultsColName d)).rows := by
          have hk : k = resIdx := by
            rw [ensure_of_found df _ k hfound] at hr
            exact Option.some.inj (hfound.symm.trans hr)
          subst hk
          rw [ensure_of_found df _ k hfound]
          exact rowsOff_map_set_self k df.rows (some "not_analyzed")
        have hroAll : RowsOff resIdx df.rows
            (fallbackRows pj resIdx prob
              (matchPass pj resIdx res (ensureResultsColumn df (resultsColName d)).rows).2 0
              (matchPass pj resIdx res (ensureResultsColumn df (resultsColName d)).rows).1) :=
          rowsOff_trans hro0 hro
        rw [getCell, getCell]
        simp only [hfi, hfiE]
        rcases hroAll.get? i with ⟨h1, h2⟩ | ⟨r, r', h1, h2, hoff⟩
        · rw [h1, h2]
        · rw [h1, h2]
          simp only [Option.some_bind]
          rw [hoff.get?_other j hjne]
      | none =>
        -- result column inserted right after the remote-path column
        have hpos : pj + 1 ≤ df.cols.length := firstIdx_lt_length _ _ _ hpj
        have hcolsE : (ensureResultsColumn df (resultsColName d)).cols =
            listInsertAt (resultsColName d) (pj + 1) df.cols := by
          rw [ensure_of_not_found df _ hfound]
          simp only [hpj]
        have hrowsE : (ensureResultsColumn df (resultsColName d)).rows =
            df.rows.map (listInsertAt (some "not_analyzed") (pj + 1)) := by
          rw [ensure_of_not_found df _ hfound]
          simp only [hpj]
        have hresIdx : resIdx = pj + 1 := by
          have : firstIdx (resultsColName d)
              (ensureResultsColumn df (resultsColName d)).cols = some (pj + 1) := by
            rw [hcolsE]
            exact firstIdx_listInsertAt_self _ df.cols (pj + 1) hfound hpos
          exact Option.some.inj (hr.symm.trans this)
        have hfiE : firstIdx name (ensureResultsColumn df (resultsColName d)).cols =
            some (if j < pj + 1 then j else j + 1) := by
          rw [hcolsE]
          exact firstIdx_listInsertAt_other name (resultsColName d) df.cols j (pj + 1)
            hrcnename hfi hpos
        have hjne : (if j < pj + 1 then j else j + 1) ≠ resIdx := by
          rw [hresIdx]
          by_cases hlt : j < pj + 1
      <;> simp [hlt] <;> omega
        rw [getCell, getCell]
        simp only [hfi, hfiE]
        rcases hro.get? i with ⟨h1, h2⟩ | ⟨r, r', h1, h2, hoff⟩
        · rw [h2]
          rw [hrowsE] at h1
          simp only [List.get?_map] at h1
          cases hdr : df.rows.get? i with
          | none => rfl
          | some r0 => rw [hdr] at h1; simp at h1
        · rw [h2]
          simp only [Option.some_bind]
          rw [hoff.get?_other _ hjne]
          rw [hrowsE] at h1
          simp only [List.get?_map] at h1
          cases hdr : df.rows.get? i with
          | none => rw [hdr] at h1; simp at h1
          | some r0 =>
            rw [hdr] at h1
            simp only [Option.map_some'] at h1
            cases h1
            simp only [Option.some_bind]
            have hr0len : pj + 1 ≤ r0.length := by
              rw [hwf r0 (List.get?_mem hdr)]
              exact hpos
            by_cases hlt : j < pj + 1
            · rw [if_pos hlt]
              exact congrArg Option.join
                (get?_listInsertAt_lt (some "not_analyzed") (pj + 1) j r0 hlt)
            · rw [if_neg hlt]
              exact congrArg Option.join
                (get?_listInsertAt_ge (some "not_analyzed") (pj + 1) j r0 (by omega) hr0len)

/-- Witness for C8 at a concrete table: the descriptive `domain` column is
untouched by the merge. -/
theorem C8_witness :
    ∃ dfOut, update_tracker_with_results exampleTracker
        [("job_invoice_gen-20250505_120000.log", "success")] "20250505" [] = .ok dfOut ∧
      dfOut.rows.length = exampleTracker.rows.length ∧
      getCell dfOut "domain" 0 = getCell exampleTracker "domain" 0 :=
  C8_only_result_column_changes exampleTracker
    [("job_invoice_gen-20250505_120000.log", "success")] "20250505" []
    (by intro r hr; fin_cases hr <;> rfl) 1 (by decide) "domain" (by decide) 0

end LogAnalyzer
